import Mathlib

/-!
Verification of the storybook-generation pipeline of `gemini_storybook.py`
(class `GeminiStorybook`), shallowly embedded in Lean.

Strings are modelled as `List Char`.  The Gemini service is a black box: its
behaviour is an explicit parameter of each embedded function (an outcome for
the single story-text call, an indexed oracle for the per-page calls), so every
theorem quantifies over all possible model responses.
-/

set_option maxHeartbeats 1000000

namespace Storybook

/-- Convenience: the characters of a string literal, as a list. -/
def chars (s : String) : List Char := s.data

/-- Whitespace for Python `str.strip()`: space, tab, newline, carriage return,
vertical tab, form feed. -/
def isPyWs (c : Char) : Bool :=
  c = ' ' || c = '\t' || c = '\n' || c = '\r' || c = '\x0b' || c = '\x0c'

/-- Model of Python `str.strip()`: drop leading and trailing whitespace. -/
def pyStrip (s : List Char) : List Char :=
  ((s.dropWhile isPyWs).reverse.dropWhile isPyWs).reverse

/-- Decompose `s` at the first occurrence of `pat`: returns `(pre, post)` with
`s = pre ++ pat ++ post` and `pre` shortest, or `none` when `pat` does not
occur in `s`. -/
def breakOn (pat : List Char) : List Char → Option (List Char × List Char)
  | [] => if pat.isPrefixOf ([] : List Char) then some ([], []) else none
  | c :: rest =>
    if pat.isPrefixOf (c :: rest) then some ([], (c :: rest).drop pat.length)
    else
      match breakOn pat rest with
      | some (pre, post) => some (c :: pre, post)
      | none => none

/-- Model of Python `pat in s` (substring test, non-empty `pat`). -/
def pyContains (pat s : List Char) : Bool := (breakOn pat s).isSome

/-- Model of Python `s.split(pat)[0]`: the text before the first occurrence of
`pat`, or all of `s` when `pat` does not occur. -/
def pySplit0 (pat s : List Char) : List Char :=
  match breakOn pat s with
  | some (pre, _) => pre
  | none => s

/-- Model of Python `s.split(pat)[1]`: the segment between the first and the
second occurrence of `pat` (to the end when there is no second occurrence);
defined exactly when `pat` occurs in `s`. -/
def pySplit1 (pat s : List Char) : Option (List Char) :=
  (breakOn pat s).map fun p => pySplit0 pat p.2

/-- Index of the first occurrence of `pat` in `s` (spec-side formulation used
to state extraction properties independently of `breakOn`). -/
def firstOcc (pat : List Char) : List Char → Option Nat
  | [] => if pat.isPrefixOf ([] : List Char) then some 0 else none
  | c :: rest =>
    if pat.isPrefixOf (c :: rest) then some 0
    else (firstOcc pat rest).map (· + 1)

/-- The text before the first occurrence of `pat` (all of `s` when absent). -/
def upToFirst (pat s : List Char) : List Char :=
  match firstOcc pat s with
  | some i => s.take i
  | none => s

/-- The text after the first occurrence of `pat`, when `pat` occurs. -/
def afterFirst (pat s : List Char) : Option (List Char) :=
  (firstOcc pat s).map fun i => s.drop (i + pat.length)

/-- Model of Python `str.lower()` (ASCII letters; all style-catalog keys are
ASCII). -/
def pyLower (s : List Char) : List Char := s.map Char.toLower

/-- First-match association lookup (used for the style catalog, whose keys are
pairwise distinct). -/
def lookupKey : List (List Char × List Char) → List Char → Option (List Char)
  | [], _ => none
  | (k, v) :: rest, key => if key = k then some v else lookupKey rest key

/-- The JSON-labeled fence marker looked for by `_generate_story_text`. -/
def jsonFence : List Char := chars "```json"

/-- The generic fence marker. -/
def fence : List Char := chars "```"

/-- Model of the fenced-block extraction of `_generate_story_text`
(`gemini_storybook.py` lines 76–79):

    if "```json" in text:
        text = text.split("```json")[1].split("```")[0].strip()
    elif "```" in text:
        text = text.split("```")[1].split("```")[0].strip()
-/
def extractBlock (text : List Char) : List Char :=
  match pySplit1 jsonFence text with
  | some seg => pyStrip (pySplit0 fence seg)
  | none =>
    match pySplit1 fence text with
    | some seg => pyStrip (pySplit0 fence seg)
    | none => text

/-! ### JSON values, `json.loads` and `json.dump`

The pipeline hands the model's text to `json.loads` and persists results with
`json.dump(story_data, f, indent=2, ensure_ascii=False)`.  We model JSON
values with integer numbers (page numbers); floats, `NaN`/`Infinity` and
surrogate-pair `\u` escapes are not modelled — no claim depends on them. -/

/-- JSON values as produced by Python `json.loads` (restricted to integer
numbers). -/
inductive Json where
  | null
  | bool (b : Bool)
  | num (n : Int)
  | str (s : List Char)
  | arr (elems : List Json)
  | obj (members : List (List Char × Json))

/-- Lookup in the members of a parsed JSON object.  Python builds a `dict` by
insertion, so with duplicate keys the later member wins. -/
def lookupJ : List (List Char × Json) → List Char → Option Json
  | [], _ => none
  | (k, v) :: rest, key =>
    match lookupJ rest key with
    | some w => some w
    | none => if key = k then some v else none

/-- Model of the Python subscript `d[key]` on a parsed JSON value: `some` when
`d` is an object carrying the key, `none` exactly when the subscript would
raise (`KeyError` / `TypeError`). -/
def getField (j : Json) (key : List Char) : Option Json :=
  match j with
  | .obj members => lookupJ members key
  | _ => none

/-- The left-brace character (written by code to keep braces out of string
literals). -/
def lbrace : Char := '\x7b'

/-- The right-brace character. -/
def rbrace : Char := '\x7d'

/-- JSON inter-token whitespace. -/
def jsonWs (c : Char) : Bool := c = ' ' || c = '\t' || c = '\n' || c = '\r'

/-- Digit-run accumulator of the number grammar. -/
def parseNatLoop : List Char → Nat → Nat × List Char
  | [], acc => (acc, [])
  | c :: rest, acc =>
    if c.isDigit then parseNatLoop rest (acc * 10 + (c.toNat - 48))
    else (acc, c :: rest)

/-- Parse a non-empty digit run. -/
def parseNatNum : List Char → Option (Nat × List Char)
  | [] => none
  | c :: rest => if c.isDigit then some (parseNatLoop rest (c.toNat - 48)) else none

/-- Parse a JSON integer (optional minus sign, then digits). -/
def parseNum : List Char → Option (Int × List Char)
  | [] => none
  | c :: rest =>
    if c = '-' then (parseNatNum rest).map fun p => (-(p.1 : Int), p.2)
    else (parseNatNum (c :: rest)).map fun p => ((p.1 : Int), p.2)

/-- Decode a single-character JSON string escape. -/
def escDecode (c : Char) : Option Char :=
  if c = '"' then some '"'
  else if c = '\\' then some '\\'
  else if c = '/' then some '/'
  else if c = 'n' then some '\n'
  else if c = 't' then some '\t'
  else if c = 'r' then some '\r'
  else if c = 'b' then some '\x08'
  else if c = 'f' then some '\x0c'
  else none

/-- Value of a hexadecimal digit. -/
def hexVal (c : Char) : Option Nat :=
  if c.isDigit then some (c.toNat - 48)
  else if 'a' ≤ c && c ≤ 'f' then some (c.toNat - 87)
  else if 'A' ≤ c && c ≤ 'F' then some (c.toNat - 55)
  else none

/-- Decode one escape sequence (the part after the backslash): either
`uXXXX` or a single-character escape.  Returns the decoded character and the
remaining input. -/
def escStep : List Char → Option (Char × List Char)
  | [] => none
  | e :: rest2 =>
    if e = 'u' then
      match rest2 with
      | h1 :: h2 :: h3 :: h4 :: rest3 =>
        (hexVal h1).bind fun a => (hexVal h2).bind fun b =>
          (hexVal h3).bind fun c2 => (hexVal h4).map fun d2 =>
            (Char.ofNat (((a * 16 + b) * 16 + c2) * 16 + d2), rest3)
      | _ => none
    else (escDecode e).map fun d => (d, rest2)

/-- Parse the body of a JSON string (after the opening quote) up to and
including the closing quote.  Raw control characters are rejected, as in
Python's strict default.  Fuel-indexed (any `fuel >` the number of decoded
characters suffices; the parser below passes its own fuel, which the size
measure `jsize` keeps large enough). -/
def parseStrBody : Nat → List Char → Option (List Char × List Char)
  | 0, _ => none
  | _ + 1, [] => none
  | fuel + 1, c :: rest =>
    if c = '"' then some ([], rest)
    else if c = '\\' then
      (escStep rest).bind fun p =>
        (parseStrBody fuel p.2).map fun q => (p.1 :: q.1, q.2)
    else if c.toNat < 32 then none
    else (parseStrBody fuel rest).map fun q => (c :: q.1, q.2)

mutual

/-- Parse one JSON value (fuel-indexed recursive descent), skipping leading
whitespace. -/
def parseVal : Nat → List Char → Option (Json × List Char)
  | 0, _ => none
  | fuel + 1, s =>
    match s.dropWhile jsonWs with
    | [] => none
    | c :: rest =>
      if c = lbrace then
        match rest.dropWhile jsonWs with
        | d :: rest2 =>
          if d = rbrace then some (.obj [], rest2)
          else (parseMembers fuel rest).map fun p => (Json.obj p.1, p.2)
        | [] => none
      else if c = '[' then
        match rest.dropWhile jsonWs with
        | d :: rest2 =>
          if d = ']' then some (.arr [], rest2)
          else (parseElems fuel rest).map fun p => (Json.arr p.1, p.2)
        | [] => none
      else if c = '"' then
        (parseStrBody (fuel + 1) rest).map fun p => (Json.str p.1, p.2)
      else if c = 't' then
        if ['r', 'u', 'e'].isPrefixOf rest then some (.bool true, rest.drop 3) else none
      else if c = 'f' then
        if ['a', 'l', 's', 'e'].isPrefixOf rest then some (.bool false, rest.drop 4) else none
      else if c = 'n' then
        if ['u', 'l', 'l'].isPrefixOf rest then some (.null, rest.drop 3) else none
      else
        (parseNum (c :: rest)).map fun p => (Json.num p.1, p.2)

/-- Parse the elements of a non-empty JSON array up to and including the
closing bracket. -/
def parseElems : Nat → List Char → Option (List Json × List Char)
  | 0, _ => none
  | fuel + 1, s =>
    match parseVal fuel s with
    | none => none
    | some (v, r) =>
      match r.dropWhile jsonWs with
      | [] => none
      | c :: r2 =>
        if c = ',' then (parseElems fuel r2).map fun p => (v :: p.1, p.2)
        else if c = ']' then some ([v], r2)
        else none

/-- Parse the members of a non-empty JSON object up to and including the
closing brace. -/
def parseMembers : Nat → List Char → Option (List (List Char × Json) × List Char)
  | 0, _ => none
  | fuel + 1, s =>
    match s.dropWhile jsonWs with
    | [] => none
    | c :: rest =>
      if c = '"' then
        match parseStrBody (fuel + 1) rest with
        | none => none
        | some (key, r) =>
          match r.dropWhile jsonWs with
          | [] => none
          | d :: r2 =>
            if d = ':' then
              match parseVal fuel r2 with
              | none => none
              | some (v, r3) =>
                match r3.dropWhile jsonWs with
                | [] => none
                | e :: r4 =>
                  if e = ',' then (parseMembers fuel r4).map fun p => ((key, v) :: p.1, p.2)
                  else if e = rbrace then some ([(key, v)], r4)
                  else none
            else none
      else none

end

/-- Model of Python `json.loads`: parse one value and require only whitespace
after it. -/
def jsonLoads (s : List Char) : Option Json :=
  match parseVal (s.length + 1) s with
  | some (j, rest) => if rest.dropWhile jsonWs = [] then some j else none
  | none => none

/-- Hexadecimal digit character (lowercase, as emitted by Python's `json`). -/
def hexDigitChar (n : Nat) : Char :=
  if n < 10 then Char.ofNat (48 + n) else Char.ofNat (87 + n)

/-- String-character escaping of Python `json.dump(..., ensure_ascii=False)`:
quote, backslash and control characters are escaped, everything else —
including non-ASCII — is written raw. -/
def escChar (c : Char) : List Char :=
  if c = '"' then ['\\', '"']
  else if c = '\\' then ['\\', '\\']
  else if c = '\n' then ['\\', 'n']
  else if c = '\t' then ['\\', 't']
  else if c = '\r' then ['\\', 'r']
  else if c = '\x08' then ['\\', 'b']
  else if c = '\x0c' then ['\\', 'f']
  else if c.toNat < 32 then
    ['\\', 'u', '0', '0', hexDigitChar (c.toNat / 16), hexDigitChar (c.toNat % 16)]
  else [c]

/-- Escape every character of a string body. -/
def escBody : List Char → List Char
  | [] => []
  | c :: rest => escChar c ++ escBody rest

/-- Decimal digits of a natural number (fuel-indexed so that the definition
is structurally recursive and computes inside the kernel; `fuel > number of
digits` always holds for the wrapper below). -/
def natCharsAux : Nat → Nat → List Char
  | 0, _ => []
  | fuel + 1, n =>
    if n < 10 then [Char.ofNat (48 + n)]
    else natCharsAux fuel (n / 10) ++ [Char.ofNat (48 + n % 10)]

/-- Decimal digits of a natural number. -/
def natChars (n : Nat) : List Char := natCharsAux (n + 1) n

/-- Decimal rendering of an integer, as Python `str(int)`. -/
def intChars (n : Int) : List Char :=
  if n < 0 then '-' :: natChars n.natAbs else natChars n.natAbs

/-- Indentation emitted by `json.dump(..., indent=2)` at nesting level
`ind`. -/
def indentChars (ind : Nat) : List Char := List.replicate (2 * ind) ' '

mutual

/-- Model of Python `json.dump(..., indent=2, ensure_ascii=False)`: render a
JSON value at nesting level `ind`. -/
def render : Nat → Json → List Char
  | _, .null => ['n', 'u', 'l', 'l']
  | _, .bool true => ['t', 'r', 'u', 'e']
  | _, .bool false => ['f', 'a', 'l', 's', 'e']
  | _, .num n => intChars n
  | _, .str s => '"' :: (escBody s ++ ['"'])
  | _, .arr [] => ['[', ']']
  | ind, .arr (x :: xs) =>
    '[' :: '\n' :: (renderElems ind (x :: xs) ++ '\n' :: (indentChars ind ++ [']']))
  | _, .obj [] => [lbrace, rbrace]
  | ind, .obj (m :: ms) =>
    lbrace :: '\n' :: (renderMembers ind (m :: ms) ++ '\n' :: (indentChars ind ++ [rbrace]))

/-- Render array elements, one per line, comma-separated. -/
def renderElems : Nat → List Json → List Char
  | _, [] => []
  | ind, [x] => indentChars (ind + 1) ++ render (ind + 1) x
  | ind, x :: y :: xs =>
    indentChars (ind + 1) ++ render (ind + 1) x ++ ',' :: '\n' :: renderElems ind (y :: xs)

/-- Render object members, one per line, comma-separated. -/
def renderMembers : Nat → List (List Char × Json) → List Char
  | _, [] => []
  | ind, [(k, v)] =>
    indentChars (ind + 1) ++ ('"' :: (escBody k ++ '"' :: ':' :: ' ' :: render (ind + 1) v))
  | ind, (k, v) :: m :: ms =>
    indentChars (ind + 1) ++ ('"' :: (escBody k ++ '"' :: ':' :: ' ' :: render (ind + 1) v)) ++
      ',' :: '\n' :: renderMembers ind (m :: ms)

end

/-- Model of `save_storybook`'s serialization (`gemini_storybook.py` line 135):
`json.dump(story_data, f, indent=2, ensure_ascii=False)`. -/
def saveDump (j : Json) : List Char := render 0 j

/-! ### Story-text generation (`_generate_story_text`) -/

/-- Outcome of the single `self.model.generate_content(full_prompt)` call of
`_generate_story_text` together with the subsequent `response.text` access:

* `callError` — `generate_content` itself raises (service error); this happens
  at line 70, *outside* the `try` block;
* `textError` — the call returns but the `response.text` accessor raises
  (e.g. blocked/refused response); line 75, inside the `try` block;
* `text t` — the response text is `t`. -/
inductive ModelOutcome where
  | callError
  | textError
  | text (t : List Char)
deriving DecidableEq

/-- Placeholder page text of the fallback path: `f"Page {i+1} of your
story..."`. -/
def fallbackPageText (n : Nat) : List Char :=
  chars "Page " ++ natChars n ++ chars " of your story..."

/-- The fallback structure of `_generate_story_text` (lines 87–90). -/
def fallbackStory (pages : Nat) : Json :=
  .obj [(chars "title", .str (chars "A Magical Story")),
        (chars "pages", .arr ((List.range pages).map fun i =>
          .obj [(chars "page_num", .num (Int.ofNat (i + 1))),
                (chars "text", .str (fallbackPageText (i + 1)))]))]

/-- Model of `_generate_story_text` (lines 48–90), parameterized by the model
call's outcome.  The `try` block covers `response.text`, the fence extraction,
`json.loads` and the `print` that subscripts `story_data['title']`; any
exception there is absorbed into the fallback story.  The `generate_content`
call itself is outside the `try`, so its errors propagate. -/
def generateStoryText (outcome : ModelOutcome) (pages : Nat) : Except Unit Json :=
  match outcome with
  | .callError => .error ()
  | .textError => .ok (fallbackStory pages)
  | .text t =>
    match jsonLoads (extractBlock t) with
    | none => .ok (fallbackStory pages)
    | some j =>
      match getField j (chars "title") with
      | none => .ok (fallbackStory pages)
      | some _ => .ok j

/-- The `"title"` field of a story value. -/
def storyTitle (j : Json) : Option Json := getField j (chars "title")

/-- Number of pages of a story value, when it has a `"pages"` array. -/
def storyPageCount (j : Json) : Option Nat :=
  match getField j (chars "pages") with
  | some (.arr xs) => some xs.length
  | _ => none

/-- The `i`-th page of a story value, when it has a `"pages"` array. -/
def pageAt (j : Json) (i : Nat) : Option Json :=
  match getField j (chars "pages") with
  | some (.arr xs) => xs[i]?
  | _ => none

/-- Successful-parse classifier for `generateStoryText`: the value returned on
the non-fallback path for response text `t`, when there is one. -/
def parsedTitled (t : List Char) : Option Json :=
  match jsonLoads (extractBlock t) with
  | none => none
  | some j =>
    match getField j (chars "title") with
    | none => none
    | some _ => some j

/-! ### Image-prompt augmentation (`_generate_image_prompts`) -/

/-- The `style_instructions` catalog (lines 97–104). -/
def styleInstructions : List (List Char × List Char) :=
  [(chars "watercolor", chars "soft watercolor painting, gentle brush strokes, pastel colors"),
   (chars "pixel art", chars "8-bit pixel art style, retro gaming aesthetic, vibrant colors"),
   (chars "comics", chars "comic book illustration, bold lines, dynamic action poses"),
   (chars "claymation", chars "claymation style, clay figures, tactile textures"),
   (chars "crochet", chars "crochet/yarn art style, soft textile textures"),
   (chars "coloring book", chars "black and white line art, coloring book style")]

/-- The generic fallback style description (line 106). -/
def genericStyleDesc : List Char := chars "high-quality children\x27s book illustration"

/-- Model of `style_instructions.get(style.lower(), "high-quality children's
book illustration")` (line 106). -/
def styleLookup (style : List Char) : List Char :=
  (lookupKey styleInstructions (pyLower style)).getD genericStyleDesc

/-- A story page as handled by the augmentation and image phases.  The Python
code carries pages as dicts; the claims about these phases presuppose pages
with `page_num` and `text`, which we bake into a record, with the
later-added fields optional. -/
structure Page where
  page_num : Int
  text : List Char
  image_prompt : Option (List Char) := none
  image : Option (List Char) := none
deriving DecidableEq

/-- A story as handled by the augmentation and image phases. -/
structure Story where
  title : List Char
  pages : List Page
deriving DecidableEq

/-- The per-page prompt built by `_generate_image_prompts` (lines 110–124). -/
def imagePromptRequest (pageText styleDesc title : List Char) : List Char :=
  chars "\nBased on this story page, create a detailed image generation prompt.\n\nPage text: \"" ++
    pageText ++
    chars "\"\nStyle: " ++ styleDesc ++ chars "\nTitle: " ++ title ++
    chars "\n\nGenerate a single, concise image prompt (2-3 sentences) that:\n- Captures the key scene/moment\n- Maintains character consistency\n- Specifies the artistic style\n- Is suitable for children\x27s book illustration\n\nReturn ONLY the image prompt text, no extra commentary.\n"

/-- Loop body of `_generate_image_prompts` (lines 108–127).  The oracle maps
the call's sequence number and the request text to the model's response (or an
error when `generate_content` / `response.text` raises).  An error aborts the
loop: the failing page and all later pages are left untouched (the earlier
pages were already mutated in place), and the Boolean records that the
exception propagates. -/
def genImagePromptsAux (oracle : Nat → List Char → Except Unit (List Char))
    (styleDesc title : List Char) : Nat → List Page → List Page × Bool
  | _, [] => ([], false)
  | idx, p :: rest =>
    match oracle idx (imagePromptRequest p.text styleDesc title) with
    | .error _ => (p :: rest, true)
    | .ok resp =>
      let r := genImagePromptsAux oracle styleDesc title (idx + 1) rest
      ({ p with image_prompt := some (pyStrip resp) } :: r.1, r.2)

/-- Model of `_generate_image_prompts` (lines 92–130): the final state of the
(in-place mutated) story, and whether an exception propagated. -/
def generateImagePrompts (oracle : Nat → List Char → Except Unit (List Char))
    (story : Story) (style : List Char) : Story × Bool :=
  let r := genImagePromptsAux oracle (styleLookup style) story.title 0 story.pages
  ({ story with pages := r.1 }, r.2)

/-! ### External image generation (`generate_with_images`) -/

/-- Loop body of `generate_with_images` (lines 150–153), with a trace of the
prompts the caller-supplied function was invoked with, in call order.  A
missing `image_prompt` key or an exception from the function aborts the loop,
leaving the failing page and all later pages untouched. -/
def genImagesAux (fn : Nat → List Char → Except Unit (List Char)) :
    Nat → List Page → List Page × List (List Char) × Bool
  | _, [] => ([], [], false)
  | idx, p :: rest =>
    match p.image_prompt with
    | none => (p :: rest, [], true)
    | some pr =>
      match fn idx pr with
      | .error _ => (p :: rest, [pr], true)
      | .ok img =>
        let r := genImagesAux fn (idx + 1) rest
        ({ p with image := some img } :: r.1, pr :: r.2.1, r.2.2)

/-- Model of `generate_with_images` (lines 138–156): the final story state,
the trace of prompts passed to the image-generation function, and whether an
exception propagated. -/
def generateWithImages (fn : Nat → List Char → Except Unit (List Char))
    (story : Story) : Story × List (List Char) × Bool :=
  let r := genImagesAux fn 0 story.pages
  ({ story with pages := r.1 }, r.2)

/-! ### Story values as JSON (for the `save_storybook` round trip) -/

/-- A page as the JSON object the pipeline carries (insertion order:
`page_num`, `text`, then the optional later-added fields). -/
def pageToJson (p : Page) : Json :=
  .obj ([(chars "page_num", .num p.page_num), (chars "text", .str p.text)] ++
    (match p.image_prompt with
     | some ip => [(chars "image_prompt", Json.str ip)]
     | none => []) ++
    (match p.image with
     | some im => [(chars "image", Json.str im)]
     | none => []))

/-- A story as the JSON object the pipeline carries. -/
def storyToJson (s : Story) : Json :=
  .obj [(chars "title", .str s.title), (chars "pages", .arr (s.pages.map pageToJson))]

/-- Read a page back from its JSON object. -/
def jsonToPage (j : Json) : Option Page :=
  match getField j (chars "page_num"), getField j (chars "text") with
  | some (.num n), some (.str t) =>
    some { page_num := n, text := t,
           image_prompt :=
             match getField j (chars "image_prompt") with
             | some (.str ip) => some ip
             | _ => none,
           image :=
             match getField j (chars "image") with
             | some (.str im) => some im
             | _ => none }
  | _, _ => none

/-- Read pages back from their JSON objects. -/
def pagesFromJson : List Json → Option (List Page)
  | [] => some []
  | x :: xs =>
    match jsonToPage x, pagesFromJson xs with
    | some p, some ps => some (p :: ps)
    | _, _ => none

/-- Read a story back from its JSON object. -/
def jsonToStory (j : Json) : Option Story :=
  match getField j (chars "title"), getField j (chars "pages") with
  | some (.str t), some (.arr xs) =>
    (pagesFromJson xs).map fun ps => { title := t, pages := ps }
  | _, _ => none

/-! ### Spec-side formulations of the extraction policy (for C3) -/

/-- The extraction policy exactly as the specification words it: the content
between the first JSON-labeled fence and the next fence, else the content
between the first generic fence pair, else the raw text. -/
def claimSelect (text : List Char) : List Char :=
  match afterFirst jsonFence text with
  | some t => pyStrip (upToFirst fence t)
  | none =>
    match afterFirst fence text with
    | some t => pyStrip (upToFirst fence t)
    | none => text

/-- The extraction policy the code actually implements, in spec-side terms:
in the JSON-labeled branch the content is additionally truncated at the next
JSON-labeled fence (a consequence of `split("```json")[1]`). -/
def amendedSelect (text : List Char) : List Char :=
  match afterFirst jsonFence text with
  | some t => pyStrip (upToFirst fence (upToFirst jsonFence t))
  | none =>
    match afterFirst fence text with
    | some t => pyStrip (upToFirst fence t)
    | none => text

/-! ### Size measures used as fuel bounds in the round-trip proof -/

mutual

/-- Size of a JSON value (strings weighted by length, so that the size bounds
the string parser's fuel as well). -/
def jsize : Json → Nat
  | .null => 1
  | .bool _ => 1
  | .num _ => 1
  | .str s => s.length + 1
  | .arr xs => lsize xs + 2
  | .obj ms => msize ms + 2

/-- Size of a list of array elements. -/
def lsize : List Json → Nat
  | [] => 0
  | x :: xs => jsize x + 1 + lsize xs

/-- Size of a list of object members (keys weighted by length). -/
def msize : List (List Char × Json) → Nat
  | [] => 0
  | m :: ms => m.1.length + jsize m.2 + 1 + msize ms

end

/-- Continuations after a rendered value inside the `json.dump(indent=2)`
layout: nothing, a comma, or a newline.  Keeps the (greedy) number parser from
running into the continuation. -/
def restOk : List Char → Prop
  | [] => True
  | c :: _ => c = ',' ∨ c = '\n'

/-- Round-trip invariant for values: with enough fuel, parsing a rendered
value consumes exactly the rendered text. -/
def Pval (fuel : Nat) : Prop :=
  ∀ (j : Json) (ind : Nat) (rest : List Char), jsize j < fuel → restOk rest →
    parseVal fuel (render ind j ++ rest) = some (j, rest)

/-- Round-trip invariant for array-element lists (non-empty, as laid out by
`renderElems`, with an optional leading whitespace run). -/
def Pelems (fuel : Nat) : Prop :=
  ∀ (xs : List Json) (ind : Nat) (rest pre : List Char),
    (∀ c ∈ pre, jsonWs c = true) → xs ≠ [] → lsize xs < fuel → restOk rest →
    parseElems fuel (pre ++ (renderElems ind xs ++ '\n' :: (indentChars ind ++ ']' :: rest))) =
      some (xs, rest)

/-- Round-trip invariant for object-member lists (non-empty, as laid out by
`renderMembers`, with an optional leading whitespace run). -/
def Pmembers (fuel : Nat) : Prop :=
  ∀ (ms : List (List Char × Json)) (ind : Nat) (rest pre : List Char),
    (∀ c ∈ pre, jsonWs c = true) → ms ≠ [] → msize ms < fuel → restOk rest →
    parseMembers fuel
        (pre ++ (renderMembers ind ms ++ '\n' :: (indentChars ind ++ rbrace :: rest))) =
      some (ms, rest)

/-! ## Lemmas about the string machinery -/

theorem breakOn_eq_firstOcc (pat : List Char) :
    ∀ s, breakOn pat s = (firstOcc pat s).map fun i => (s.take i, s.drop (i + pat.length)) := by
  intro s
  induction s with
  | nil =>
    by_cases h : pat.isPrefixOf ([] : List Char) <;> simp [breakOn, firstOcc, h]
  | cons c rest ih =>
    by_cases h : pat.isPrefixOf (c :: rest)
    · simp [breakOn, firstOcc, h]
    · simp only [breakOn, firstOcc, h, if_neg]
      rw [ih]
      cases hf : firstOcc pat rest with
      | none => simp
      | some i =>
        have harr : i + 1 + pat.length = (i + pat.length) + 1 := by omega
        simp [harr]

theorem pySplit0_eq (pat s : List Char) : pySplit0 pat s = upToFirst pat s := by
  unfold pySplit0 upToFirst
  rw [breakOn_eq_firstOcc]
  cases firstOcc pat s <;> simp

theorem pySplit1_eq (pat s : List Char) :
    pySplit1 pat s = (afterFirst pat s).map fun t => upToFirst pat t := by
  unfold pySplit1 afterFirst
  rw [breakOn_eq_firstOcc]
  cases firstOcc pat s <;> simp [pySplit0_eq]

theorem firstOcc_spec (pat : List Char) :
    ∀ s i, firstOcc pat s = some i → pat.isPrefixOf (s.drop i) = true := by
  intro s
  induction s with
  | nil =>
    intro i h
    by_cases hp : pat.isPrefixOf ([] : List Char)
    · simp [firstOcc, hp] at h
      simpa [← h] using hp
    · simp [firstOcc, hp] at h
  | cons c rest ih =>
    intro i h
    by_cases hp : pat.isPrefixOf (c :: rest)
    · simp [firstOcc, hp] at h
      simpa [← h] using hp
    · cases hf : firstOcc pat rest with
      | none => simp [firstOcc, hp, hf] at h
      | some i' =>
        simp [firstOcc, hp, hf] at h
        subst h
        simpa using ih i' hf

theorem firstOcc_min (pat : List Char) :
    ∀ s i, firstOcc pat s = some i → ∀ j, j < i → pat.isPrefixOf (s.drop j) = false := by
  intro s
  induction s with
  | nil =>
    intro i h j hj
    by_cases hp : pat.isPrefixOf ([] : List Char) <;> simp [firstOcc, hp] at h
    omega
  | cons c rest ih =>
    intro i h j hj
    by_cases hp : pat.isPrefixOf (c :: rest)
    · simp [firstOcc, hp] at h
      omega
    · cases hf : firstOcc pat rest with
      | none => simp [firstOcc, hp, hf] at h
      | some i' =>
        simp [firstOcc, hp, hf] at h
        subst h
        cases j with
        | zero => simpa using Bool.eq_false_iff.mpr hp
        | succ j' => simpa using ih i' hf j' (by omega)

theorem firstOcc_le_length (pat : List Char) :
    ∀ s i, firstOcc pat s = some i → i ≤ s.length := by
  intro s
  induction s with
  | nil =>
    intro i h
    by_cases hp : pat.isPrefixOf ([] : List Char) <;> simp [firstOcc, hp] at h
    omega
  | cons c rest ih =>
    intro i h
    by_cases hp : pat.isPrefixOf (c :: rest)
    · simp [firstOcc, hp] at h
      omega
    · cases hf : firstOcc pat rest with
      | none => simp [firstOcc, hp, hf] at h
      | some i' =>
        simp [firstOcc, hp, hf] at h
        subst h
        have := ih i' hf
        simp
        omega

theorem isPrefixOf_of_isPrefixOf_take :
    ∀ (pat t : List Char) (m : Nat), pat.isPrefixOf (t.take m) = true → pat.isPrefixOf t = true := by
  intro pat
  induction pat with
  | nil => intro t m _; simp [List.isPrefixOf]
  | cons p ps ih =>
    intro t m h
    cases t with
    | nil => simp at h
    | cons c ts =>
      cases m with
      | zero => simp [List.isPrefixOf] at h
      | succ m' =>
        simp only [List.take_succ_cons, List.isPrefixOf, Bool.and_eq_true] at h ⊢
        exact ⟨h.1, ih ts m' h.2⟩

theorem firstOcc_take_eq_none (pat s : List Char) (hpat : pat ≠ []) (i : Nat)
    (h : firstOcc pat s = some i) : firstOcc pat (s.take i) = none := by
  cases h2 : firstOcc pat (s.take i) with
  | none => rfl
  | some j =>
    exfalso
    have hj_pre : pat.isPrefixOf ((s.take i).drop j) = true := firstOcc_spec pat _ j h2
    have hj_len : j ≤ (s.take i).length := firstOcc_le_length pat _ j h2
    have htl : (s.take i).length ≤ i := by simp
    rcases Nat.lt_or_ge j i with hji | hji
    · have : pat.isPrefixOf (s.drop j) = true := by
        have : (s.take i).drop j = (s.drop j).take (i - j) := by
          rw [List.drop_take]
        rw [this] at hj_pre
        exact isPrefixOf_of_isPrefixOf_take pat _ _ hj_pre
      have := firstOcc_min pat s i h j hji
      simp_all
    · have hj_eq : j = i := by omega
      subst hj_eq
      have : (s.take j).drop j = [] := by
        apply List.drop_eq_nil_of_le
        simpa using htl
      rw [this] at hj_pre
      cases pat with
      | nil => exact hpat rfl
      | cons p ps => simp [List.isPrefixOf] at hj_pre

theorem upToFirst_idem (pat s : List Char) (hpat : pat ≠ []) :
    upToFirst pat (upToFirst pat s) = upToFirst pat s := by
  unfold upToFirst
  cases h : firstOcc pat s with
  | none => simp [h]
  | some i => simp [firstOcc_take_eq_none pat s hpat i h]

theorem isPrefixOf_append_self : ∀ (pat b : List Char), pat.isPrefixOf (pat ++ b) = true := by
  intro pat b
  induction pat with
  | nil => simp [List.isPrefixOf]
  | cons p ps ih => simp [List.isPrefixOf, ih]

theorem pyContains_infix (pat : List Char) (hpat : pat ≠ []) :
    ∀ (a b : List Char), pyContains pat (a ++ pat ++ b) = true := by
  intro a
  induction a with
  | nil =>
    intro b
    cases pat with
    | nil => exact absurd rfl hpat
    | cons c cs =>
      simp [pyContains, breakOn, isPrefixOf_append_self]
  | cons x a' ih =>
    intro b
    by_cases hp : pat.isPrefixOf (x :: (a' ++ pat ++ b)) = true
    · have hp' : pat <+: x :: (a' ++ (pat ++ b)) := by
        simpa [List.append_assoc] using List.isPrefixOf_iff_prefix.mp hp
      simp [pyContains, breakOn, hp']
    · have hp' : ¬ pat <+: x :: (a' ++ (pat ++ b)) := by
        intro hc
        exact hp (by simpa [List.append_assoc] using List.isPrefixOf_iff_prefix.mpr hc)
      have hsome := ih b
      simp only [pyContains] at hsome ⊢
      simp only [List.cons_append, List.append_assoc] at hsome ⊢
      rw [breakOn]
      rw [if_neg (by simpa using hp')]
      cases hb : breakOn pat (a' ++ (pat ++ b)) with
      | some pr => simp
      | none => rw [hb] at hsome; simp at hsome

theorem natCharsAux_ne_nil (fuel n : Nat) (h : 0 < fuel) : natCharsAux fuel n ≠ [] := by
  cases fuel with
  | zero => omega
  | succ f =>
    by_cases hn : n < 10 <;> simp [natCharsAux, hn]

theorem natChars_ne_nil (n : Nat) : natChars n ≠ [] :=
  natCharsAux_ne_nil (n + 1) n (by omega)

theorem fallbackPageText_ne_nil (n : Nat) : fallbackPageText n ≠ [] := by
  unfold fallbackPageText
  intro hcontra
  have := congrArg List.length hcontra
  simp [chars] at this

theorem fallback_title (n : Nat) :
    storyTitle (fallbackStory n) = some (.str (chars "A Magical Story")) := by
  simp [storyTitle, getField, lookupJ, fallbackStory, chars]

theorem fallback_pageCount (n : Nat) : storyPageCount (fallbackStory n) = some n := by
  simp [storyPageCount, getField, lookupJ, fallbackStory, chars]

theorem fallback_pageAt (n i : Nat) (h : i < n) :
    pageAt (fallbackStory n) i =
      some (.obj [(chars "page_num", .num (Int.ofNat (i + 1))),
                  (chars "text", .str (fallbackPageText (i + 1)))]) := by
  simp [pageAt, getField, lookupJ, fallbackStory, chars, List.getElem?_map, List.getElem?_range, h]

/-! ## C3: extraction-priority policy -/

/-- C3 (amended): for every response text, the parser input selected by
`_generate_story_text` is: if a JSON-labeled fence marker is present, the
content after the first `"```json"`, truncated at the next `"```json"` marker
and then at the next generic fence, stripped; else if a generic fence is
present, the content between the first generic fence pair, stripped; else the
raw text unmodified.  In particular the JSON-labeled fence takes priority
whenever it is present. -/
theorem claim3_extraction_policy (text : List Char) : extractBlock text = amendedSelect text := by
  unfold extractBlock amendedSelect
  rw [pySplit1_eq, pySplit1_eq]
  cases h : afterFirst jsonFence text with
  | some t => simp [pySplit0_eq]
  | none =>
    cases h2 : afterFirst fence text with
    | some t =>
      simp [pySplit0_eq]
      rw [upToFirst_idem fence t (by decide)]
    | none => simp

/-- C3 counterexample: on `"A```json B````json C``` D"` the code feeds
`"B`"` (a stray backtick included) to the JSON parser, whereas the claim's
"content between the first JSON-labeled fence and the next fence" is `"B"`:
`split("```json")[1]` truncates at the *second* `"```json"` marker (index 11),
not at the earlier generic fence (index 10). -/
theorem claim3_counterexample :
    extractBlock (chars "A```json B````json C``` D") = chars "B`" ∧
    claimSelect (chars "A```json B````json C``` D") = chars "B" ∧
    chars "B`" ≠ chars "B" :=
  ⟨by decide, by decide, by decide⟩

/-! ## C1: page count of the story-text phase -/

/-- C1 counterexample: the model answers with valid JSON whose `pages` array
is empty while one page was requested; `_generate_story_text` parses it
successfully, returns it as-is, and the result has 0 pages, not 1.  The page
count is therefore *not* guaranteed when the response parses successfully. -/
theorem claim1_counterexample :
    generateStoryText (ModelOutcome.text (chars "\x7b\"title\": \"T\", \"pages\": []\x7d")) 1 =
      .ok (Json.obj [(chars "title", Json.str (chars "T")), (chars "pages", Json.arr [])]) ∧
    storyPageCount (Json.obj [(chars "title", Json.str (chars "T")), (chars "pages", Json.arr [])]) =
      some 0 ∧
    some (0 : Nat) ≠ some 1 :=
  ⟨rfl, rfl, by decide⟩

/-- C1 (amended): for every prompt and positive `page_count`, the story
returned by `_generate_story_text` has exactly `page_count` pages whenever the
fallback path is taken; when the model response parses successfully (as a
value whose `'title'` subscript succeeds), the parsed value is returned as-is,
with no validation of its page count. -/
theorem claim1_page_count (outcome : ModelOutcome) (pages : Nat) (h : 1 ≤ pages) :
    ∀ j, generateStoryText outcome pages = .ok j →
      (∃ t, outcome = .text t ∧ parsedTitled t = some j) ∨
      (j = fallbackStory pages ∧ storyPageCount j = some pages) := by
  intro j hj
  cases outcome with
  | callError => simp [generateStoryText] at hj
  | textError =>
    simp [generateStoryText] at hj
    subst hj
    exact Or.inr ⟨rfl, fallback_pageCount pages⟩
  | text t =>
    cases hl : jsonLoads (extractBlock t) with
    | none =>
      have heq : generateStoryText (ModelOutcome.text t) pages = .ok (fallbackStory pages) := by
        simp [generateStoryText, hl]
      rw [heq] at hj
      simp at hj
      subst hj
      exact Or.inr ⟨rfl, fallback_pageCount pages⟩
    | some j' =>
      cases hg : getField j' (chars "title") with
      | none =>
        have heq : generateStoryText (ModelOutcome.text t) pages = .ok (fallbackStory pages) := by
          simp [generateStoryText, hl, hg]
        rw [heq] at hj
        simp at hj
        subst hj
        exact Or.inr ⟨rfl, fallback_pageCount pages⟩
      | some v =>
        have heq : generateStoryText (ModelOutcome.text t) pages = .ok j' := by
          simp [generateStoryText, hl, hg]
        rw [heq] at hj
        simp at hj
        subst hj
        exact Or.inl ⟨t, rfl, by simp [parsedTitled, hl, hg]⟩

/-- Witness for C1 (amended) at a concrete input. -/
theorem claim1_page_count_witness :
    1 ≤ 1 ∧
    (∀ j, generateStoryText ModelOutcome.textError 1 = .ok j →
      (∃ t, ModelOutcome.textError = .text t ∧ parsedTitled t = some j) ∨
      (j = fallbackStory 1 ∧ storyPageCount j = some 1)) :=
  ⟨by decide, claim1_page_count ModelOutcome.textError 1 (by decide)⟩

/-! ## C2: absorption of story-text failures -/

/-- C2 counterexample: the `generate_content` call of `_generate_story_text`
sits at line 70, *outside* the `try` block that starts at line 73, so a
service error raised by that call propagates to the caller instead of being
converted to the fallback story. -/
theorem claim2_counterexample :
    generateStoryText ModelOutcome.callError 3 = .error () := rfl

/-- C2 (amended): every failure occurring inside the parse phase of
`_generate_story_text` — a raising `response.text` accessor (model refusal), a
malformed or unparseable response, or a missing `'title'` key — is absorbed
and converted to a story; only an error raised by the `generate_content` call
itself (which is outside the `try` block) propagates to the caller. -/
theorem claim2_absorbed (outcome : ModelOutcome) (pages : Nat)
    (h : outcome ≠ ModelOutcome.callError) :
    ∃ j, generateStoryText outcome pages = .ok j := by
  cases outcome with
  | callError => exact absurd rfl h
  | textError => exact ⟨fallbackStory pages, rfl⟩
  | text t =>
    cases hl : jsonLoads (extractBlock t) with
    | none => exact ⟨fallbackStory pages, by simp [generateStoryText, hl]⟩
    | some j' =>
      cases hg : getField j' (chars "title") with
      | none => exact ⟨fallbackStory pages, by simp [generateStoryText, hl, hg]⟩
      | some v => exact ⟨j', by simp [generateStoryText, hl, hg]⟩

/-- Witness for C2 (amended) at a concrete input. -/
theorem claim2_absorbed_witness :
    ModelOutcome.textError ≠ ModelOutcome.callError ∧
    ∃ j, generateStoryText ModelOutcome.textError 2 = .ok j :=
  ⟨by decide, claim2_absorbed ModelOutcome.textError 2 (by decide)⟩

/-! ## C4: the fallback story -/

/-- C4: for every `page_count ≥ 1` the fallback story — a function of
`page_count` alone, by definition — has the fixed placeholder title
`"A Magical Story"`, exactly `page_count` pages, and its `i`-th page (0-based)
has `page_num = i + 1` and non-empty placeholder text embedding the decimal
page number. -/
theorem claim4_fallback (n : Nat) (h : 1 ≤ n) :
    storyTitle (fallbackStory n) = some (.str (chars "A Magical Story")) ∧
    storyPageCount (fallbackStory n) = some n ∧
    ∀ i, i < n →
      pageAt (fallbackStory n) i =
        some (.obj [(chars "page_num", .num (Int.ofNat (i + 1))),
                    (chars "text", .str (fallbackPageText (i + 1)))]) ∧
      fallbackPageText (i + 1) ≠ [] ∧
      pyContains (natChars (i + 1)) (fallbackPageText (i + 1)) = true := by
  refine ⟨fallback_title n, fallback_pageCount n, ?_⟩
  intro i hi
  refine ⟨fallback_pageAt n i hi, fallbackPageText_ne_nil (i + 1), ?_⟩
  simpa [fallbackPageText] using
    pyContains_infix (natChars (i + 1)) (natChars_ne_nil (i + 1)) (chars "Page ")
      (chars " of your story...")

/-- Witness for C4 at `page_count = 3`. -/
theorem claim4_fallback_witness :
    1 ≤ 3 ∧
    (storyTitle (fallbackStory 3) = some (.str (chars "A Magical Story")) ∧
     storyPageCount (fallbackStory 3) = some 3 ∧
     ∀ i, i < 3 →
       pageAt (fallbackStory 3) i =
         some (.obj [(chars "page_num", .num (Int.ofNat (i + 1))),
                     (chars "text", .str (fallbackPageText (i + 1)))]) ∧
       fallbackPageText (i + 1) ≠ [] ∧
       pyContains (natChars (i + 1)) (fallbackPageText (i + 1)) = true) :=
  ⟨by decide, claim4_fallback 3 (by decide)⟩

/-! ## C6: style resolution -/

/-- C6: style resolution is case-insensitive against the fixed catalog: names
agreeing up to letter case resolve identically, a recognized name resolves to
exactly its catalog description, any unrecognized name resolves to the generic
fallback description, and resolution is total by construction.  Concrete
anchors: `"pixel art"` and `"Pixel Art"` both resolve to the pixel-art catalog
entry, `"origami"` to the generic description. -/
theorem claim6_style (s t d : List Char) :
    (pyLower s = pyLower t → styleLookup s = styleLookup t) ∧
    (lookupKey styleInstructions (pyLower s) = some d → styleLookup s = d) ∧
    (lookupKey styleInstructions (pyLower s) = none → styleLookup s = genericStyleDesc) ∧
    styleLookup (chars "pixel art") =
      chars "8-bit pixel art style, retro gaming aesthetic, vibrant colors" ∧
    styleLookup (chars "Pixel Art") =
      chars "8-bit pixel art style, retro gaming aesthetic, vibrant colors" ∧
    styleLookup (chars "origami") = genericStyleDesc := by
  refine ⟨?_, ?_, ?_, by decide, by decide, by decide⟩
  · intro he; simp [styleLookup, he]
  · intro he; simp [styleLookup, he]
  · intro he; simp [styleLookup, he]

/-- Witness for C6 at concrete casings of the same name. -/
theorem claim6_style_witness :
    pyLower (chars "Pixel Art") = pyLower (chars "PIXEL ART") ∧
    styleLookup (chars "Pixel Art") = styleLookup (chars "PIXEL ART") :=
  ⟨by decide, (claim6_style (chars "Pixel Art") (chars "PIXEL ART") []).1 (by decide)⟩

/-! ## Edge-whitespace lemmas about `pyStrip` -/

theorem dropWhile_head_not (p : Char → Bool) :
    ∀ (l : List Char) c, (l.dropWhile p).head? = some c → p c = false := by
  intro l
  induction l with
  | nil => intro c h; simp at h
  | cons x xs ih =>
    intro c h
    by_cases hx : p x
    · rw [List.dropWhile_cons, if_pos hx] at h
      exact ih c h
    · rw [List.dropWhile_cons, if_neg hx] at h
      simp at h
      subst h
      exact Bool.eq_false_iff.mpr hx

theorem getLast?_dropWhile (p : Char → Bool) :
    ∀ (l : List Char), l.dropWhile p ≠ [] → (l.dropWhile p).getLast? = l.getLast? := by
  intro l
  induction l with
  | nil => intro h; simp at h
  | cons x xs ih =>
    intro h
    by_cases hx : p x
    · rw [List.dropWhile_cons, if_pos hx] at h ⊢
      rw [ih h]
      have hxs : xs ≠ [] := by
        intro hc
        subst hc
        simp at h
      cases xs with
      | nil => exact absurd rfl hxs
      | cons y ys => simp [List.getLast?_cons_cons]
    · rw [List.dropWhile_cons, if_neg hx]

theorem pyStrip_head (s : List Char) :
    ∀ c, (pyStrip s).head? = some c → isPyWs c = false := by
  intro c h
  unfold pyStrip at h
  rw [List.head?_reverse] at h
  have hne : (s.dropWhile isPyWs).reverse.dropWhile isPyWs ≠ [] := by
    intro hc
    rw [hc] at h
    simp at h
  rw [getLast?_dropWhile isPyWs _ hne, List.getLast?_reverse] at h
  exact dropWhile_head_not isPyWs s c h

theorem pyStrip_last (s : List Char) :
    ∀ c, (pyStrip s).getLast? = some c → isPyWs c = false := by
  intro c h
  unfold pyStrip at h
  rw [List.getLast?_reverse] at h
  exact dropWhile_head_not isPyWs _ c h

/-! ## Behaviour of the image-prompt augmentation loop -/

theorem genAux_length (o : Nat → List Char → Except Unit (List Char)) (sd ti : List Char) :
    ∀ (ps : List Page) (idx : Nat),
      (genImagePromptsAux o sd ti idx ps).1.length = ps.length := by
  intro ps
  induction ps with
  | nil => intro idx; simp [genImagePromptsAux]
  | cons q rest ih =>
    intro idx
    cases ho : o idx (imagePromptRequest q.text sd ti) with
    | error e => simp [genImagePromptsAux, ho]
    | ok resp => simp [genImagePromptsAux, ho, ih]

theorem genAux_success (o : Nat → List Char → Except Unit (List Char)) (sd ti : List Char) :
    ∀ (ps : List Page) (idx : Nat), (genImagePromptsAux o sd ti idx ps).2 = false →
      ∀ i p, ps[i]? = some p →
        ∃ r, o (idx + i) (imagePromptRequest p.text sd ti) = .ok r ∧
          (genImagePromptsAux o sd ti idx ps).1[i]? =
            some { p with image_prompt := some (pyStrip r) } := by
  intro ps
  induction ps with
  | nil => intro idx _ i p hp; simp at hp
  | cons q rest ih =>
    intro idx hok i p hp
    cases ho : o idx (imagePromptRequest q.text sd ti) with
    | error e => simp [genImagePromptsAux, ho] at hok
    | ok resp =>
      have hok' : (genImagePromptsAux o sd ti (idx + 1) rest).2 = false := by
        simpa [genImagePromptsAux, ho] using hok
      cases i with
      | zero =>
        simp at hp
        subst hp
        exact ⟨resp, by simpa using ho, by simp [genImagePromptsAux, ho]⟩
      | succ i' =>
        simp at hp
        obtain ⟨r, hr, hres⟩ := ih (idx + 1) hok' i' p hp
        refine ⟨r, ?_, ?_⟩
        · rw [show idx + (i' + 1) = (idx + 1) + i' by omega]
          exact hr
        · simpa [genImagePromptsAux, ho] using hres

theorem genAux_error (o : Nat → List Char → Except Unit (List Char)) (sd ti : List Char) :
    ∀ (ps : List Page) (idx k : Nat), k < ps.length →
      (∀ i p, i < k → ps[i]? = some p →
        ∃ r, o (idx + i) (imagePromptRequest p.text sd ti) = .ok r) →
      (∀ p, ps[k]? = some p → o (idx + k) (imagePromptRequest p.text sd ti) = .error ()) →
      (genImagePromptsAux o sd ti idx ps).2 = true ∧
      (genImagePromptsAux o sd ti idx ps).1.drop k = ps.drop k := by
  intro ps
  induction ps with
  | nil => intro idx k hk _ _; simp at hk
  | cons q rest ih =>
    intro idx k hk hok herr
    cases k with
    | zero =>
      have he := herr q (by simp)
      simp only [Nat.add_zero] at he
      exact ⟨by simp [genImagePromptsAux, he], by simp [genImagePromptsAux, he]⟩
    | succ k' =>
      obtain ⟨r, hr⟩ := hok 0 q (by omega) (by simp)
      simp only [Nat.add_zero] at hr
      have hrec := ih (idx + 1) k' (by simpa using Nat.lt_of_succ_lt_succ hk)
        (fun i p hi hp => by
          obtain ⟨r', hr'⟩ := hok (i + 1) p (by omega) (by simpa using hp)
          exact ⟨r', by rwa [show idx + (i + 1) = (idx + 1) + i by omega] at hr'⟩)
        (fun p hp => by
          have := herr p (by simpa using hp)
          rwa [show idx + (k' + 1) = (idx + 1) + k' by omega] at this)
      refine ⟨by simp [genImagePromptsAux, hr, hrec.1], ?_⟩
      simp only [genImagePromptsAux, hr]
      simpa using hrec.2

/-! ## C5: results of image-prompt augmentation -/

/-- C5 (amended): when `_generate_image_prompts` completes without an
exception, every page of the result is the corresponding input page with
`image_prompt` set to exactly the model's response for that page with leading
and trailing whitespace stripped (hence with no leading or trailing
whitespace, though possibly empty when the model answered only whitespace),
the page ordering is unchanged, and the result is the input story so mutated
in place (same title, pages updated index-wise). -/
theorem claim5_image_prompts (oracle : Nat → List Char → Except Unit (List Char))
    (story : Story) (style : List Char)
    (h : (generateImagePrompts oracle story style).2 = false) :
    (generateImagePrompts oracle story style).1.title = story.title ∧
    (generateImagePrompts oracle story style).1.pages.length = story.pages.length ∧
    ∀ i p, story.pages[i]? = some p →
      ∃ r, oracle i (imagePromptRequest p.text (styleLookup style) story.title) = .ok r ∧
        (generateImagePrompts oracle story style).1.pages[i]? =
          some { p with image_prompt := some (pyStrip r) } ∧
        (∀ c, (pyStrip r).head? = some c → isPyWs c = false) ∧
        (∀ c, (pyStrip r).getLast? = some c → isPyWs c = false) := by
  refine ⟨rfl, ?_, ?_⟩
  · exact genAux_length oracle (styleLookup style) story.title story.pages 0
  · intro i p hp
    have h0 : (genImagePromptsAux oracle (styleLookup style) story.title 0 story.pages).2 = false := h
    obtain ⟨r, hr, hres⟩ :=
      genAux_success oracle (styleLookup style) story.title story.pages 0 h0 i p hp
    simp only [Nat.zero_add] at hr
    exact ⟨r, hr, hres, pyStrip_head r, pyStrip_last r⟩

/-- Witness for C5 (amended) at a concrete story and oracle. -/
theorem claim5_image_prompts_witness :
    (generateImagePrompts (fun _ _ => Except.ok (chars " neat scene "))
        ⟨chars "T", [{ page_num := 1, text := chars "hi" }]⟩ (chars "comics")).2 = false ∧
    ((generateImagePrompts (fun _ _ => Except.ok (chars " neat scene "))
        ⟨chars "T", [{ page_num := 1, text := chars "hi" }]⟩ (chars "comics")).1.title =
        chars "T" ∧
      (generateImagePrompts (fun _ _ => Except.ok (chars " neat scene "))
        ⟨chars "T", [{ page_num := 1, text := chars "hi" }]⟩ (chars "comics")).1.pages.length =
        1 ∧
      ∀ i p,
        ([{ page_num := 1, text := chars "hi" }] : List Page)[i]? = some p →
        ∃ r, (fun (_ : Nat) (_ : List Char) => Except.ok (ε := Unit) (chars " neat scene ")) i
              (imagePromptRequest p.text (styleLookup (chars "comics")) (chars "T")) = .ok r ∧
          (generateImagePrompts (fun _ _ => Except.ok (chars " neat scene "))
            ⟨chars "T", [{ page_num := 1, text := chars "hi" }]⟩ (chars "comics")).1.pages[i]? =
            some { p with image_prompt := some (pyStrip r) } ∧
          (∀ c, (pyStrip r).head? = some c → isPyWs c = false) ∧
          (∀ c, (pyStrip r).getLast? = some c → isPyWs c = false)) :=
  ⟨rfl, claim5_image_prompts (fun _ _ => Except.ok (chars " neat scene "))
    ⟨chars "T", [{ page_num := 1, text := chars "hi" }]⟩ (chars "comics") rfl⟩

/-- C5 counterexample: a whitespace-only model response strips to the empty
string, so the stored `image_prompt` is empty — the claim's "hence …
non-empty" does not hold. -/
theorem claim5_counterexample :
    (generateImagePrompts (fun _ _ => Except.ok (chars "  "))
        ⟨chars "T", [{ page_num := 1, text := chars "hi" }]⟩ (chars "comics")).2 = false ∧
    ((generateImagePrompts (fun _ _ => Except.ok (chars "  "))
        ⟨chars "T", [{ page_num := 1, text := chars "hi" }]⟩
        (chars "comics")).1.pages.map Page.image_prompt) = [some []] :=
  ⟨rfl, rfl⟩

/-! ## C7: propagation of image-prompt failures -/

/-- C7: if the per-page model call of `_generate_image_prompts` raises at the
`k`-th page (all earlier calls having succeeded), the exception propagates to
the caller as a hard failure — no fallback exists in this phase — and the
failing page and every page after it are left exactly as they were, so no page
from `k` onward receives an `image_prompt`. -/
theorem claim7_error_propagates (oracle : Nat → List Char → Except Unit (List Char))
    (story : Story) (style : List Char) (k : Nat)
    (hk : k < story.pages.length)
    (hok : ∀ i p, i < k → story.pages[i]? = some p →
      ∃ r, oracle i (imagePromptRequest p.text (styleLookup style) story.title) = .ok r)
    (herr : ∀ p, story.pages[k]? = some p →
      oracle k (imagePromptRequest p.text (styleLookup style) story.title) = .error ()) :
    (generateImagePrompts oracle story style).2 = true ∧
    (generateImagePrompts oracle story style).1.pages.drop k = story.pages.drop k := by
  have := genAux_error oracle (styleLookup style) story.title story.pages 0 k hk
    (fun i p hi hp => by simpa using hok i p hi hp)
    (fun p hp => by simpa using herr p hp)
  exact ⟨this.1, this.2⟩

/-- Witness for C7: a two-page story whose second model call fails. -/
theorem claim7_error_propagates_witness :
    (generateImagePrompts (fun i _ => if i = 0 then Except.ok (chars "x") else Except.error ())
        ⟨chars "T", [{ page_num := 1, text := chars "a" }, { page_num := 2, text := chars "b" }]⟩
        (chars "comics")).2 = true ∧
    (generateImagePrompts (fun i _ => if i = 0 then Except.ok (chars "x") else Except.error ())
        ⟨chars "T", [{ page_num := 1, text := chars "a" }, { page_num := 2, text := chars "b" }]⟩
        (chars "comics")).1.pages.drop 1 =
      ([{ page_num := 1, text := chars "a" }, { page_num := 2, text := chars "b" }] :
        List Page).drop 1 := by
  refine claim7_error_propagates _ _ _ 1 (by simp) ?_ ?_
  · intro i p hi hp
    interval_cases i
    simp at hp
    exact ⟨chars "x", by simp [← hp]⟩
  · intro p hp
    simp at hp
    simp [← hp]

/-! ## C10: frame property of image-prompt augmentation -/

/-- C10: when `_generate_image_prompts` completes without an exception it
modifies nothing except setting each page's `image_prompt`: the title, the
number and order of pages, and each page's `page_num`, `text` and `image`
fields are exactly the same afterwards. -/
theorem claim10_frame (oracle : Nat → List Char → Except Unit (List Char))
    (story : Story) (style : List Char)
    (h : (generateImagePrompts oracle story style).2 = false) :
    (generateImagePrompts oracle story style).1.title = story.title ∧
    (generateImagePrompts oracle story style).1.pages.length = story.pages.length ∧
    ∀ (i : Nat) (p : Page), story.pages[i]? = some p →
      ∃ q : Page, (generateImagePrompts oracle story style).1.pages[i]? = some q ∧
        q.page_num = p.page_num ∧ q.text = p.text ∧ q.image = p.image := by
  refine ⟨rfl, genAux_length oracle (styleLookup style) story.title story.pages 0, ?_⟩
  intro i p hp
  obtain ⟨r, _, hres⟩ :=
    genAux_success oracle (styleLookup style) story.title story.pages 0 h i p hp
  exact ⟨{ p with image_prompt := some (pyStrip r) }, hres, rfl, rfl, rfl⟩

/-- Witness for C10 at a concrete story and oracle. -/
theorem claim10_frame_witness :
    (generateImagePrompts (fun _ _ => Except.ok (chars "v"))
        ⟨chars "T", [{ page_num := 1, text := chars "hi", image := some (chars "img") }]⟩
        (chars "crochet")).2 = false ∧
    ((generateImagePrompts (fun _ _ => Except.ok (chars "v"))
        ⟨chars "T", [{ page_num := 1, text := chars "hi", image := some (chars "img") }]⟩
        (chars "crochet")).1.title = chars "T" ∧
      (generateImagePrompts (fun _ _ => Except.ok (chars "v"))
        ⟨chars "T", [{ page_num := 1, text := chars "hi", image := some (chars "img") }]⟩
        (chars "crochet")).1.pages.length =
        ([{ page_num := 1, text := chars "hi", image := some (chars "img") }] :
          List Page).length ∧
      ∀ (i : Nat) (p : Page),
        ([{ page_num := 1, text := chars "hi", image := some (chars "img") }] :
          List Page)[i]? = some p →
        ∃ q : Page, (generateImagePrompts (fun _ _ => Except.ok (chars "v"))
            ⟨chars "T", [{ page_num := 1, text := chars "hi", image := some (chars "img") }]⟩
            (chars "crochet")).1.pages[i]? = some q ∧
          q.page_num = p.page_num ∧ q.text = p.text ∧ q.image = p.image) :=
  ⟨rfl, claim10_frame (fun _ _ => Except.ok (chars "v"))
    ⟨chars "T", [{ page_num := 1, text := chars "hi", image := some (chars "img") }]⟩
    (chars "crochet") rfl⟩

/-! ## Behaviour of the image-generation fan-out loop -/

theorem imgAux_length (fn : Nat → List Char → Except Unit (List Char)) :
    ∀ (ps : List Page) (idx : Nat), (genImagesAux fn idx ps).1.length = ps.length := by
  intro ps
  induction ps with
  | nil => intro idx; simp [genImagesAux]
  | cons q rest ih =>
    intro idx
    cases hq : q.image_prompt with
    | none => simp [genImagesAux, hq]
    | some pr =>
      cases hf : fn idx pr with
      | error e => simp [genImagesAux, hq, hf]
      | ok img => simp [genImagesAux, hq, hf, ih]

theorem imgAux_success (fn : Nat → List Char → Except Unit (List Char)) :
    ∀ (ps : List Page) (idx : Nat),
      (∀ p ∈ ps, p.image_prompt.isSome) →
      (∀ (i : Nat) (p : Page) (pr : List Char), ps[i]? = some p → p.image_prompt = some pr →
        ∃ r, fn (idx + i) pr = .ok r) →
      (genImagesAux fn idx ps).2.2 = false ∧
      (genImagesAux fn idx ps).2.1 = ps.filterMap Page.image_prompt ∧
      ∀ (i : Nat) (p : Page) (pr : List Char), ps[i]? = some p → p.image_prompt = some pr →
        ∃ r, fn (idx + i) pr = .ok r ∧
          (genImagesAux fn idx ps).1[i]? = some { p with image := some r } := by
  intro ps
  induction ps with
  | nil =>
    intro idx _ _
    refine ⟨rfl, rfl, ?_⟩
    intro i p pr hp
    simp at hp
  | cons q rest ih =>
    intro idx hall hcall
    obtain ⟨pr, hpr⟩ := Option.isSome_iff_exists.mp (hall q (by simp))
    obtain ⟨r, hr⟩ := hcall 0 q pr (by simp) hpr
    simp only [Nat.add_zero] at hr
    have ihres := ih (idx + 1) (fun p hp => hall p (by simp [hp]))
      (fun i p pr' hp hpr' => by
        obtain ⟨r', hr'⟩ := hcall (i + 1) p pr' (by simpa using hp) hpr'
        exact ⟨r', by rwa [show idx + (i + 1) = (idx + 1) + i by omega] at hr'⟩)
    refine ⟨?_, ?_, ?_⟩
    · simp [genImagesAux, hpr, hr, ihres.1]
    · simp [genImagesAux, hpr, hr, ihres.2.1, List.filterMap_cons]
    · intro i p pr' hp hpr'
      cases i with
      | zero =>
        simp at hp
        subst hp
        rw [hpr] at hpr'
        simp at hpr'
        subst hpr'
        exact ⟨r, by simpa using hr, by simp [genImagesAux, hpr, hr]⟩
      | succ i' =>
        simp at hp
        obtain ⟨r', hr', hres⟩ := ihres.2.2 i' p pr' hp hpr'
        refine ⟨r', ?_, ?_⟩
        · rw [show idx + (i' + 1) = (idx + 1) + i' by omega]
          exact hr'
        · simpa [genImagesAux, hpr, hr] using hres

theorem imgAux_error (fn : Nat → List Char → Except Unit (List Char)) :
    ∀ (ps : List Page) (idx k : Nat), k < ps.length →
      (∀ p ∈ ps, p.image_prompt.isSome) →
      (∀ (i : Nat) (p : Page) (pr : List Char), i < k → ps[i]? = some p →
        p.image_prompt = some pr → ∃ r, fn (idx + i) pr = .ok r) →
      (∀ (p : Page) (pr : List Char), ps[k]? = some p → p.image_prompt = some pr →
        fn (idx + k) pr = .error ()) →
      (genImagesAux fn idx ps).2.2 = true ∧
      (genImagesAux fn idx ps).1.drop k = ps.drop k ∧
      (genImagesAux fn idx ps).2.1 = (ps.take (k + 1)).filterMap Page.image_prompt ∧
      ∀ (i : Nat) (p : Page) (pr : List Char), i < k → ps[i]? = some p →
        p.image_prompt = some pr →
        ∃ r, fn (idx + i) pr = .ok r ∧
          (genImagesAux fn idx ps).1[i]? = some { p with image := some r } := by
  intro ps
  induction ps with
  | nil => intro idx k hk _ _ _; simp at hk
  | cons q rest ih =>
    intro idx k hk hall hok herr
    obtain ⟨pr, hpr⟩ := Option.isSome_iff_exists.mp (hall q (by simp))
    cases k with
    | zero =>
      have he := herr q pr (by simp) hpr
      simp only [Nat.add_zero] at he
      refine ⟨by simp [genImagesAux, hpr, he], by simp [genImagesAux, hpr, he], ?_, ?_⟩
      · simp [genImagesAux, hpr, he, List.filterMap_cons]
      · intro i p pr' hi
        omega
    | succ k' =>
      obtain ⟨r, hr⟩ := hok 0 q pr (by omega) (by simp) hpr
      simp only [Nat.add_zero] at hr
      have ihres := ih (idx + 1) k' (by simpa using Nat.lt_of_succ_lt_succ hk)
        (fun p hp => hall p (by simp [hp]))
        (fun i p pr' hi hp hpr' => by
          obtain ⟨r', hr'⟩ := hok (i + 1) p pr' (by omega) (by simpa using hp) hpr'
          exact ⟨r', by rwa [show idx + (i + 1) = (idx + 1) + i by omega] at hr'⟩)
        (fun p pr' hp hpr' => by
          have := herr p pr' (by simpa using hp) hpr'
          rwa [show idx + (k' + 1) = (idx + 1) + k' by omega] at this)
      refine ⟨by simp [genImagesAux, hpr, hr, ihres.1], ?_, ?_, ?_⟩
      · simp only [genImagesAux, hpr, hr]
        simpa using ihres.2.1
      · simp [genImagesAux, hpr, hr, ihres.2.2.1, List.filterMap_cons]
      · intro i p pr' hi hp hpr'
        cases i with
        | zero =>
          simp at hp
          subst hp
          rw [hpr] at hpr'
          simp at hpr'
          subst hpr'
          exact ⟨r, by simpa using hr, by simp [genImagesAux, hpr, hr]⟩
        | succ i' =>
          simp at hp
          obtain ⟨r', hr', hres⟩ := ihres.2.2.2 i' p pr' (by omega) hp hpr'
          refine ⟨r', ?_, ?_⟩
          · rw [show idx + (i' + 1) = (idx + 1) + i' by omega]
            exact hr'
          · simpa [genImagesAux, hpr, hr] using hres

/-! ## C8: the image-generation fan-out -/

/-- C8: for a story whose pages all carry an `image_prompt`,
`generate_with_images` invokes the supplied function once per page in page
order (the call trace is exactly the pages' prompts, in order), passing
exactly that page's `image_prompt`, and stores each result under the page's
`image` field.  If the function raises on the `k`-th page, the exception
propagates, the pages before `k` keep their stored images, the trace stops at
page `k`, and the pages from `k` onward are unchanged (no `image` stored). -/
theorem claim8_fanout (fn : Nat → List Char → Except Unit (List Char)) (story : Story)
    (hall : ∀ p ∈ story.pages, p.image_prompt.isSome) :
    (generateWithImages fn story).1.pages.length = story.pages.length ∧
    ((∀ (i : Nat) (p : Page) (pr : List Char), story.pages[i]? = some p →
        p.image_prompt = some pr → ∃ r, fn i pr = .ok r) →
      (generateWithImages fn story).2.2 = false ∧
      (generateWithImages fn story).2.1 = story.pages.filterMap Page.image_prompt ∧
      ∀ (i : Nat) (p : Page) (pr : List Char), story.pages[i]? = some p →
        p.image_prompt = some pr →
        ∃ r, fn i pr = .ok r ∧
          (generateWithImages fn story).1.pages[i]? = some { p with image := some r }) ∧
    (∀ (k : Nat), k < story.pages.length →
      (∀ (i : Nat) (p : Page) (pr : List Char), i < k → story.pages[i]? = some p →
        p.image_prompt = some pr → ∃ r, fn i pr = .ok r) →
      (∀ (p : Page) (pr : List Char), story.pages[k]? = some p → p.image_prompt = some pr →
        fn k pr = .error ()) →
      (generateWithImages fn story).2.2 = true ∧
      (generateWithImages fn story).1.pages.drop k = story.pages.drop k ∧
      (generateWithImages fn story).2.1 = (story.pages.take (k + 1)).filterMap Page.image_prompt ∧
      ∀ (i : Nat) (p : Page) (pr : List Char), i < k → story.pages[i]? = some p →
        p.image_prompt = some pr →
        ∃ r, fn i pr = .ok r ∧
          (generateWithImages fn story).1.pages[i]? = some { p with image := some r }) := by
  refine ⟨imgAux_length fn story.pages 0, ?_, ?_⟩
  · intro hcall
    have := imgAux_success fn story.pages 0 hall
      (fun i p pr hp hpr => by simpa using hcall i p pr hp hpr)
    refine ⟨this.1, this.2.1, ?_⟩
    intro i p pr hp hpr
    obtain ⟨r, hr, hres⟩ := this.2.2 i p pr hp hpr
    exact ⟨r, by simpa using hr, hres⟩
  · intro k hk hok herr
    have := imgAux_error fn story.pages 0 k hk hall
      (fun i p pr hi hp hpr => by simpa using hok i p pr hi hp hpr)
      (fun p pr hp hpr => by simpa using herr p pr hp hpr)
    refine ⟨this.1, this.2.1, this.2.2.1, ?_⟩
    intro i p pr hi hp hpr
    obtain ⟨r, hr, hres⟩ := this.2.2.2 i p pr hi hp hpr
    exact ⟨r, by simpa using hr, hres⟩

/-- Witness for C8: on a concrete two-page story with prompts and an
always-succeeding function, the call trace is exactly the two prompts in page
order. -/
theorem claim8_fanout_witness :
    (generateWithImages (fun _ _ => Except.ok (chars "img"))
        ⟨chars "T",
          [{ page_num := 1, text := chars "a", image_prompt := some (chars "p1") },
           { page_num := 2, text := chars "b", image_prompt := some (chars "p2") }]⟩).2.1 =
      [chars "p1", chars "p2"] := by
  have h := (claim8_fanout (fun _ _ => Except.ok (chars "img"))
      ⟨chars "T",
        [{ page_num := 1, text := chars "a", image_prompt := some (chars "p1") },
         { page_num := 2, text := chars "b", image_prompt := some (chars "p2") }]⟩
      (by decide)).2.1 (fun i p pr _ _ => ⟨chars "img", rfl⟩)
  rw [h.2.1]
  decide

/-! ## Round trip: numbers -/

theorem digitChar_isDigit (d : Nat) (h : d < 10) : (Char.ofNat (48 + d)).isDigit = true := by
  interval_cases d <;> decide

theorem digitChar_val (d : Nat) (h : d < 10) : (Char.ofNat (48 + d)).toNat - 48 = d := by
  interval_cases d <;> decide

theorem digitChar_ne_minus (d : Nat) (h : d < 10) : (Char.ofNat (48 + d) = '-') = False := by
  interval_cases d <;> decide

theorem parseNatLoop_stop (rest : List Char) (acc : Nat)
    (h : ∀ c, rest.head? = some c → c.isDigit = false) :
    parseNatLoop rest acc = (acc, rest) := by
  cases rest with
  | nil => rfl
  | cons c t => simp [parseNatLoop, h c rfl]

theorem parseNatLoop_natCharsAux :
    ∀ (fuel n acc : Nat) (rest : List Char), n < 10 ^ fuel →
      parseNatLoop (natCharsAux fuel n ++ rest) acc =
        parseNatLoop rest (acc * 10 ^ (natCharsAux fuel n).length + n) := by
  intro fuel
  induction fuel with
  | zero =>
    intro n acc rest h
    simp at h
    subst h
    simp [natCharsAux]
  | succ f ih =>
    intro n acc rest h
    by_cases hn : n < 10
    · simp only [natCharsAux, if_pos hn, List.cons_append, List.nil_append]
      rw [parseNatLoop]
      simp [digitChar_isDigit n hn, digitChar_val n hn]
    · simp only [natCharsAux, if_neg hn]
      rw [List.append_assoc]
      rw [ih (n / 10) acc _ (by
        have h10 : (0:Nat) < 10 := by omega
        apply (Nat.div_lt_iff_lt_mul h10).mpr
        calc n < 10 ^ (f + 1) := h
        _ = 10 ^ f * 10 := by rw [pow_succ])]
      simp only [List.cons_append, List.nil_append]
      rw [parseNatLoop]
      simp only [digitChar_isDigit (n % 10) (by omega), if_pos]
      rw [digitChar_val (n % 10) (by omega)]
      congr 1
      have hlen : (natCharsAux f (n / 10) ++ [Char.ofNat (48 + n % 10)]).length =
          (natCharsAux f (n / 10)).length + 1 := by simp
      rw [hlen, pow_succ]
      have hdm := Nat.div_add_mod n 10
      set A := acc * 10 ^ (natCharsAux f (n / 10)).length with hA
      have : acc * (10 ^ (natCharsAux f (n / 10)).length * 10) = A * 10 := by
        rw [hA]; ring
      rw [this]
      omega

theorem natCharsAux_cons :
    ∀ (fuel n : Nat), 0 < fuel →
      ∃ d t, natCharsAux fuel n = Char.ofNat (48 + d) :: t ∧ d < 10 := by
  intro fuel
  induction fuel with
  | zero => intro n h; omega
  | succ f ih =>
    intro n _
    by_cases hn : n < 10
    · exact ⟨n, [], by simp [natCharsAux, hn], hn⟩
    · cases f with
      | zero =>
        exact ⟨n % 10, [], by simp [natCharsAux, hn], by omega⟩
      | succ f' =>
        obtain ⟨d, t, hdt, hd⟩ := ih (n / 10) (by omega)
        refine ⟨d, t ++ [Char.ofNat (48 + n % 10)], ?_, hd⟩
        rw [natCharsAux, if_neg hn, hdt]
        simp

theorem nat_lt_pow_self (n : Nat) : n < 10 ^ (n + 1) := by
  calc n < 10 ^ n := Nat.lt_pow_self (by omega) n
  _ ≤ 10 ^ (n + 1) := Nat.pow_le_pow_right (by omega) (by omega)

theorem parseNatNum_natChars (n : Nat) (rest : List Char)
    (hrest : ∀ c, rest.head? = some c → c.isDigit = false) :
    parseNatNum (natChars n ++ rest) = some (n, rest) := by
  have hloop : parseNatLoop (natChars n ++ rest) 0 = (n, rest) := by
    rw [show natChars n = natCharsAux (n + 1) n from rfl,
      parseNatLoop_natCharsAux (n + 1) n 0 rest (nat_lt_pow_self n),
      parseNatLoop_stop rest _ hrest]
    norm_num
  obtain ⟨d, t, hdt, hd⟩ := natCharsAux_cons (n + 1) n (by omega)
  rw [show natChars n = natCharsAux (n + 1) n from rfl, hdt] at hloop ⊢
  rw [List.cons_append, parseNatLoop] at hloop
  simp only [digitChar_isDigit d hd, if_pos] at hloop
  rw [digitChar_val d hd] at hloop
  simp only [Nat.zero_mul, Nat.zero_add] at hloop
  simp only [List.cons_append, parseNatNum, digitChar_isDigit d hd, if_pos]
  rw [digitChar_val d hd, hloop]

theorem parseNum_intChars (m : Int) (rest : List Char)
    (hrest : ∀ c, rest.head? = some c → c.isDigit = false) :
    parseNum (intChars m ++ rest) = some (m, rest) := by
  by_cases hm : m < 0
  · simp only [intChars, if_pos hm, List.cons_append, parseNum, if_pos]
    rw [parseNatNum_natChars m.natAbs rest hrest]
    simp only [Option.map_some']
    have : -(m.natAbs : Int) = m := by omega
    rw [this]
  · simp only [intChars, if_neg hm]
    obtain ⟨d, t, hdt, hd⟩ := natCharsAux_cons (m.natAbs + 1) m.natAbs (by omega)
    rw [show natChars m.natAbs = natCharsAux (m.natAbs + 1) m.natAbs from rfl, hdt,
      List.cons_append, parseNum, if_neg (by simp [digitChar_ne_minus d hd]),
      ← List.cons_append, ← hdt,
      show natCharsAux (m.natAbs + 1) m.natAbs = natChars m.natAbs from rfl,
      parseNatNum_natChars m.natAbs rest hrest]
    simp only [Option.map_some']
    have : (m.natAbs : Int) = m := by omega
    rw [this]

/-! ## Round trip: strings -/

theorem hexVal_hexDigitChar (v : Nat) (h : v < 16) : hexVal (hexDigitChar v) = some v := by
  interval_cases v <;> decide

theorem parseStrBody_escBody :
    ∀ (s : List Char) (fuel : Nat) (rest : List Char), s.length < fuel →
      parseStrBody fuel (escBody s ++ '"' :: rest) = some (s, rest) := by
  intro s
  induction s with
  | nil =>
    intro fuel rest hf
    cases fuel with
    | zero => omega
    | succ f => simp [escBody, parseStrBody]
  | cons c s' ih =>
    intro fuel rest hf
    cases fuel with
    | zero => simp at hf
    | succ f =>
      have hf' : s'.length < f := by simp at hf; omega
      have ihr := ih f rest hf'
      by_cases h1 : c = '"'
      · subst h1; simp [escBody, escChar, parseStrBody, escStep, escDecode, ihr]
      by_cases h2 : c = '\\'
      · subst h2; simp [escBody, escChar, parseStrBody, escStep, escDecode, ihr]
      by_cases h3 : c = '\n'
      · subst h3; simp [escBody, escChar, parseStrBody, escStep, escDecode, ihr]
      by_cases h4 : c = '\t'
      · subst h4; simp [escBody, escChar, parseStrBody, escStep, escDecode, ihr]
      by_cases h5 : c = '\r'
      · subst h5; simp [escBody, escChar, parseStrBody, escStep, escDecode, ihr]
      by_cases h6 : c = '\x08'
      · subst h6; simp [escBody, escChar, parseStrBody, escStep, escDecode, ihr]
      by_cases h7 : c = '\x0c'
      · subst h7; simp [escBody, escChar, parseStrBody, escStep, escDecode, ihr]
      by_cases h8 : c.toNat < 32
      · have d1 : c.toNat / 16 < 16 := by omega
        have d2 : c.toNat % 16 < 16 := by omega
        have e0 : hexVal '0' = some 0 := by decide
        have hch : Char.ofNat (c.toNat / 16 * 16 + c.toNat % 16) = c := by
          rw [show c.toNat / 16 * 16 + c.toNat % 16 = c.toNat from by omega, Char.ofNat_toNat]
        simp only [escBody, escChar, if_neg h1, if_neg h2, if_neg h3, if_neg h4, if_neg h5,
          if_neg h6, if_neg h7, if_pos h8, List.cons_append, List.append_assoc, List.nil_append]
        simp [parseStrBody, escStep, e0, hexVal_hexDigitChar _ d1, hexVal_hexDigitChar _ d2,
          hch, ihr]
      · have h8' : (c.toNat < 32) = False := by simp [h8]
        simp only [escBody, escChar, if_neg h1, if_neg h2, if_neg h3, if_neg h4, if_neg h5,
          if_neg h6, if_neg h7, if_neg h8, List.cons_append, List.nil_append]
        simp [parseStrBody, if_neg h1, if_neg h2, h8', ihr]

/-! ## Whitespace and dispatch helpers -/

theorem dropWhile_append_all (p : Char → Bool) (l1 l2 : List Char)
    (h : ∀ c ∈ l1, p c = true) : (l1 ++ l2).dropWhile p = l2.dropWhile p := by
  induction l1 with
  | nil => simp
  | cons x xs ih => simp_all [List.dropWhile_cons]

theorem indentChars_ws (n : Nat) : ∀ c ∈ indentChars n, jsonWs c = true := by
  intro c hc
  have := List.eq_of_mem_replicate hc
  subst this
  decide

theorem parseVal_skip_ws (fuel : Nat) (pre s : List Char)
    (h : ∀ c ∈ pre, jsonWs c = true) : parseVal fuel (pre ++ s) = parseVal fuel s := by
  cases fuel with
  | zero => rfl
  | succ f =>
    simp only [parseVal]
    rw [dropWhile_append_all jsonWs pre s h]

theorem restOk_not_digit (rest : List Char) (h : restOk rest) :
    ∀ c, rest.head? = some c → c.isDigit = false := by
  cases rest with
  | nil => intro c hc; simp at hc
  | cons d t =>
    intro c hc
    simp at hc
    subst hc
    rcases h with h | h <;> subst h <;> decide

theorem digitChar_props (d : Nat) (h : d < 10) :
    jsonWs (Char.ofNat (48 + d)) = false ∧
    Char.ofNat (48 + d) ≠ lbrace ∧ Char.ofNat (48 + d) ≠ '[' ∧
    Char.ofNat (48 + d) ≠ '"' ∧ Char.ofNat (48 + d) ≠ 't' ∧
    Char.ofNat (48 + d) ≠ 'f' ∧ Char.ofNat (48 + d) ≠ 'n' ∧
    Char.ofNat (48 + d) ≠ ']' ∧ Char.ofNat (48 + d) ≠ rbrace := by
  interval_cases d <;> exact (by decide)

/-- The head character of a rendered JSON value: never whitespace, never a
closing bracket or brace. -/
theorem render_head (ind : Nat) (j : Json) :
    ∃ c t, render ind j = c :: t ∧ jsonWs c = false ∧ c ≠ ']' ∧ c ≠ rbrace := by
  cases j with
  | null => exact ⟨'n', _, rfl, by decide⟩
  | bool b => cases b <;> exact ⟨_, _, rfl, by decide⟩
  | num m =>
    by_cases hm : m < 0
    · exact ⟨'-', natChars m.natAbs, by simp [render, intChars, hm], by decide, by decide,
        by decide⟩
    · obtain ⟨d, t, hdt, hd⟩ := natCharsAux_cons (m.natAbs + 1) m.natAbs (by omega)
      obtain ⟨p1, _, _, _, _, _, _, p8, p9⟩ := digitChar_props d hd
      refine ⟨Char.ofNat (48 + d), t, ?_, p1, p8, p9⟩
      simp only [render, intChars, if_neg hm, natChars]
      exact hdt
  | str s => exact ⟨'"', _, rfl, by decide⟩
  | arr xs => cases xs <;> exact ⟨'[', _, rfl, by decide⟩
  | obj ms => cases ms <;> exact ⟨lbrace, _, rfl, by decide⟩

theorem jsize_pos (j : Json) : 1 ≤ jsize j := by
  cases j <;> simp [jsize]

theorem renderElems_cons_eq (ind : Nat) (x : Json) (xs' : List Json) :
    ∃ T, renderElems ind (x :: xs') = indentChars (ind + 1) ++ (render (ind + 1) x ++ T) := by
  cases xs' with
  | nil => exact ⟨[], by simp [renderElems]⟩
  | cons y ys => exact ⟨',' :: '\n' :: renderElems ind (y :: ys), by simp [renderElems]⟩

theorem renderMembers_cons_eq (ind : Nat) (k : List Char) (v : Json)
    (ms' : List (List Char × Json)) :
    ∃ T, renderMembers ind ((k, v) :: ms') =
      indentChars (ind + 1) ++
        ('"' :: (escBody k ++ ('"' :: ':' :: ' ' :: (render (ind + 1) v ++ T)))) := by
  cases ms' with
  | nil => exact ⟨[], by simp [renderMembers]⟩
  | cons m2 ms'' =>
    exact ⟨',' :: '\n' :: renderMembers ind (m2 :: ms''), by simp [renderMembers]⟩

theorem dropWhile_close (ind : Nat) (c0 : Char) (rest : List Char) (h : jsonWs c0 = false) :
    ('\n' :: (indentChars ind ++ c0 :: rest)).dropWhile jsonWs = c0 :: rest := by
  rw [List.dropWhile_cons, if_pos (by decide),
    dropWhile_append_all jsonWs _ _ (indentChars_ws ind), List.dropWhile_cons, if_neg (by simp [h])]

theorem parse_render_all : ∀ fuel, Pval fuel ∧ Pelems fuel ∧ Pmembers fuel := by
  intro fuel
  induction fuel with
  | zero =>
    refine ⟨?_, ?_, ?_⟩
    · intro j ind rest hsz _
      have := jsize_pos j
      omega
    · intro xs ind rest pre _ hne hsz _
      exact absurd hsz (by omega)
    · intro ms ind rest pre _ hne hsz _
      exact absurd hsz (by omega)
  | succ f ih =>
    obtain ⟨ihv, ihe, ihm⟩ := ih
    refine ⟨?_, ?_, ?_⟩
    · -- Pval (f + 1)
      intro j ind rest hsz hrest
      have hndig := restOk_not_digit rest hrest
      cases j with
      | null => simp [render, parseVal, List.dropWhile, jsonWs, List.isPrefixOf, lbrace]
      | bool b =>
        cases b <;> simp [render, parseVal, List.dropWhile, jsonWs, List.isPrefixOf, lbrace]
      | num m =>
        by_cases hm : m < 0
        · simp only [render, intChars, if_pos hm, List.cons_append]
          simp only [parseVal]
          rw [List.dropWhile_cons, if_neg (by decide)]
          simp only [if_neg (by decide : ¬('-' : Char) = lbrace),
            if_neg (by decide : ¬('-' : Char) = '['), if_neg (by decide : ¬('-' : Char) = '"'),
            if_neg (by decide : ¬('-' : Char) = 't'), if_neg (by decide : ¬('-' : Char) = 'f'),
            if_neg (by decide : ¬('-' : Char) = 'n')]
          rw [show '-' :: (natChars m.natAbs ++ rest) = intChars m ++ rest from by
            simp [intChars, hm]]
          rw [parseNum_intChars m rest hndig]
          simp
        · obtain ⟨d, t, hdt, hd⟩ := natCharsAux_cons (m.natAbs + 1) m.natAbs (by omega)
          obtain ⟨p1, p2, p3, p4, p5, p6, p7, _, _⟩ := digitChar_props d hd
          have hren : render ind (Json.num m) = Char.ofNat (48 + d) :: t := by
            simp only [render, intChars, if_neg hm, natChars]
            exact hdt
          rw [hren, List.cons_append]
          simp only [parseVal]
          rw [List.dropWhile_cons, if_neg (by simp [p1])]
          simp only [if_neg p2, if_neg p3, if_neg p4, if_neg p5, if_neg p6, if_neg p7]
          rw [show Char.ofNat (48 + d) :: (t ++ rest) = intChars m ++ rest from by
            simp only [intChars, if_neg hm, natChars, hdt, List.cons_append]]
          rw [parseNum_intChars m rest hndig]
          simp
      | str s =>
        simp [render, parseVal, List.dropWhile, jsonWs, lbrace]
        exact parseStrBody_escBody s (f + 1) rest (by simp [jsize] at hsz; omega)
      | arr xs =>
        cases xs with
        | nil => simp [render, parseVal, List.dropWhile, jsonWs, lbrace]
        | cons x xs' =>
          obtain ⟨c0, t0, hc0, hws0, hne0, _⟩ := render_head (ind + 1) x
          obtain ⟨T, hT⟩ := renderElems_cons_eq ind x xs'
          have hlsz : lsize (x :: xs') < f := by simp [jsize] at hsz; omega
          have hdrop : ('\n' :: (renderElems ind (x :: xs') ++
              '\n' :: (indentChars ind ++ ']' :: rest))).dropWhile jsonWs =
              c0 :: (t0 ++ (T ++ '\n' :: (indentChars ind ++ ']' :: rest))) := by
            rw [List.dropWhile_cons, if_pos (by decide), hT, List.append_assoc,
              dropWhile_append_all jsonWs _ _ (indentChars_ws (ind + 1)), List.append_assoc,
              hc0, List.cons_append, List.dropWhile_cons, if_neg (by simp [hws0])]
          have helems := ihe (x :: xs') ind rest ['\n']
            (by intro c hc; simp at hc; subst hc; decide) (by simp) hlsz hrest
          simp only [List.cons_append, List.nil_append] at helems
          simp only [render, List.cons_append, List.append_assoc, List.nil_append]
          simp only [parseVal]
          rw [List.dropWhile_cons, if_neg (by decide)]
          simp [hdrop, helems, hne0, lbrace]
      | obj ms =>
        cases ms with
        | nil => simp [render, parseVal, List.dropWhile, jsonWs, lbrace, rbrace]
        | cons m ms' =>
          obtain ⟨k, v⟩ := m
          obtain ⟨T, hT⟩ := renderMembers_cons_eq ind k v ms'
          have hmsz : msize ((k, v) :: ms') < f := by simp [jsize] at hsz; omega
          have hdrop : ∃ Y, ('\n' :: (renderMembers ind ((k, v) :: ms') ++
              '\n' :: (indentChars ind ++ rbrace :: rest))).dropWhile jsonWs = '"' :: Y := by
            rw [List.dropWhile_cons, if_pos (by decide), hT, List.append_assoc,
              dropWhile_append_all jsonWs _ _ (indentChars_ws (ind + 1)), List.cons_append,
              List.dropWhile_cons, if_neg (by decide)]
            exact ⟨_, rfl⟩
          obtain ⟨Y, hdropY⟩ := hdrop
          have hmem := ihm ((k, v) :: ms') ind rest ['\n']
            (by intro c hc; simp at hc; subst hc; decide) (by simp) hmsz hrest
          simp only [List.cons_append, List.nil_append] at hmem
          simp only [render, List.cons_append, List.append_assoc, List.nil_append]
          simp only [parseVal]
          rw [List.dropWhile_cons, if_neg (by decide)]
          simp [hdropY, hmem, (by decide : (('"' : Char) = rbrace) = False)]
    · -- Pelems (f + 1)
      intro xs ind rest pre hpre hne hsz hrest
      cases xs with
      | nil => exact absurd rfl hne
      | cons x xs' =>
        have hjx : jsize x < f := by
          simp [lsize] at hsz
          have := jsize_pos x
          omega
        have hws : ∀ c ∈ pre ++ indentChars (ind + 1), jsonWs c = true := by
          intro c hc
          rcases List.mem_append.mp hc with h | h
          exacts [hpre c h, indentChars_ws _ c h]
        cases xs' with
        | nil =>
          simp only [renderElems, parseElems, List.append_assoc, List.cons_append,
            List.nil_append]
          have hv : parseVal f (pre ++ (indentChars (ind + 1) ++ (render (ind + 1) x ++
              '\n' :: (indentChars ind ++ ']' :: rest)))) =
              some (x, '\n' :: (indentChars ind ++ ']' :: rest)) := by
            rw [← List.append_assoc pre]
            rw [parseVal_skip_ws f _ _ hws]
            exact ihv x (ind + 1) _ hjx (by simp [restOk])
          simp [hv, dropWhile_close ind ']' rest (by decide)]
        | cons y ys =>
          have hlyz : lsize (y :: ys) < f := by
            have h1 : lsize (x :: y :: ys) = jsize x + 1 + lsize (y :: ys) := rfl
            have := jsize_pos x
            omega
          have hrec := ihe (y :: ys) ind rest ['\n']
            (by intro c hc; simp at hc; subst hc; decide) (by simp) hlyz hrest
          simp only [List.cons_append, List.nil_append] at hrec
          simp only [renderElems, parseElems, List.append_assoc, List.cons_append,
            List.nil_append]
          have hv : parseVal f (pre ++ (indentChars (ind + 1) ++ (render (ind + 1) x ++
              ',' :: '\n' :: (renderElems ind (y :: ys) ++
                '\n' :: (indentChars ind ++ ']' :: rest))))) =
              some (x, ',' :: '\n' :: (renderElems ind (y :: ys) ++
                '\n' :: (indentChars ind ++ ']' :: rest))) := by
            rw [← List.append_assoc pre]
            rw [parseVal_skip_ws f _ _ hws]
            exact ihv x (ind + 1) _ hjx (by simp [restOk])
          simp [hv, hrec, List.dropWhile_cons, jsonWs]
    · -- Pmembers (f + 1)
      intro ms ind rest pre hpre hne hsz hrest
      cases ms with
      | nil => exact absurd rfl hne
      | cons m ms' =>
        obtain ⟨k, v⟩ := m
        have hmsz1 : msize ((k, v) :: ms') = k.length + jsize v + 1 + msize ms' := rfl
        have hjv : jsize v < f := by have := jsize_pos v; omega
        have hkl : k.length < f + 1 := by omega
        have hws : ∀ c ∈ pre ++ indentChars (ind + 1), jsonWs c = true := by
          intro c hc
          rcases List.mem_append.mp hc with h | h
          exacts [hpre c h, indentChars_ws _ c h]
        cases ms' with
        | nil =>
          simp only [renderMembers, parseMembers, List.append_assoc, List.cons_append,
            List.nil_append]
          have hdropS : (pre ++ (indentChars (ind + 1) ++ ('"' :: (escBody k ++
              ('"' :: ':' :: ' ' :: (render (ind + 1) v ++
                '\n' :: (indentChars ind ++ rbrace :: rest))))))).dropWhile jsonWs =
              '"' :: (escBody k ++ ('"' :: ':' :: ' ' :: (render (ind + 1) v ++
                '\n' :: (indentChars ind ++ rbrace :: rest)))) := by
            rw [← List.append_assoc pre, dropWhile_append_all jsonWs _ _ hws,
              List.dropWhile_cons, if_neg (by decide)]
          have hstr := parseStrBody_escBody k (f + 1)
            (':' :: ' ' :: (render (ind + 1) v ++ '\n' :: (indentChars ind ++ rbrace :: rest)))
            hkl
          have hv : parseVal f (' ' :: (render (ind + 1) v ++
              '\n' :: (indentChars ind ++ rbrace :: rest))) =
              some (v, '\n' :: (indentChars ind ++ rbrace :: rest)) := by
            rw [← List.singleton_append,
              parseVal_skip_ws f [' '] _ (by intro c hc; simp at hc; subst hc; decide)]
            exact ihv v (ind + 1) _ hjv (by simp [restOk])
          simp [hdropS, hstr, hv, dropWhile_close ind rbrace rest (by decide),
            List.dropWhile_cons, jsonWs, (by decide : ((rbrace : Char) = ',') = False)]
        | cons m2 ms'' =>
          have hmrec : msize (m2 :: ms'') < f := by omega
          have hrec := ihm (m2 :: ms'') ind rest ['\n']
            (by intro c hc; simp at hc; subst hc; decide) (by simp) hmrec hrest
          simp only [List.cons_append, List.nil_append] at hrec
          simp only [renderMembers, parseMembers, List.append_assoc, List.cons_append,
            List.nil_append]
          have hdropS : (pre ++ (indentChars (ind + 1) ++ ('"' :: (escBody k ++
              ('"' :: ':' :: ' ' :: (render (ind + 1) v ++
                ',' :: '\n' :: (renderMembers ind (m2 :: ms'') ++
                  '\n' :: (indentChars ind ++ rbrace :: rest)))))))).dropWhile jsonWs =
              '"' :: (escBody k ++ ('"' :: ':' :: ' ' :: (render (ind + 1) v ++
                ',' :: '\n' :: (renderMembers ind (m2 :: ms'') ++
                  '\n' :: (indentChars ind ++ rbrace :: rest))))) := by
            rw [← List.append_assoc pre, dropWhile_append_all jsonWs _ _ hws,
              List.dropWhile_cons, if_neg (by decide)]
          have hstr := parseStrBody_escBody k (f + 1)
            (':' :: ' ' :: (render (ind + 1) v ++
              ',' :: '\n' :: (renderMembers ind (m2 :: ms'') ++
                '\n' :: (indentChars ind ++ rbrace :: rest))))
            hkl
          have hv : parseVal f (' ' :: (render (ind + 1) v ++
              ',' :: '\n' :: (renderMembers ind (m2 :: ms'') ++
                '\n' :: (indentChars ind ++ rbrace :: rest)))) =
              some (v, ',' :: '\n' :: (renderMembers ind (m2 :: ms'') ++
                '\n' :: (indentChars ind ++ rbrace :: rest))) := by
            rw [← List.singleton_append,
              parseVal_skip_ws f [' '] _ (by intro c hc; simp at hc; subst hc; decide)]
            exact ihv v (ind + 1) _ hjv (by simp [restOk])
          simp [hdropS, hstr, hv, hrec, List.dropWhile_cons, jsonWs]

theorem escChar_len (c : Char) : 1 ≤ (escChar c).length := by
  unfold escChar
  split_ifs <;> simp

theorem escBody_len : ∀ (s : List Char), s.length ≤ (escBody s).length := by
  intro s
  induction s with
  | nil => simp [escBody]
  | cons c s' ih =>
    have := escChar_len c
    simp [escBody]
    omega

theorem intChars_len (m : Int) : 1 ≤ (intChars m).length := by
  unfold intChars
  split_ifs with h
  · simp
  · have := natChars_ne_nil m.natAbs
    exact List.length_pos.mpr this

mutual

theorem render_len : (ind : Nat) → (j : Json) → jsize j ≤ (render ind j).length
  | ind, .null => by simp [render, jsize]
  | ind, .bool b => by cases b <;> simp [render, jsize]
  | ind, .num m => by
    have := intChars_len m
    simp [render, jsize]
    omega
  | ind, .str s => by
    have := escBody_len s
    simp [render, jsize]
    omega
  | ind, .arr [] => by simp [render, jsize, lsize]
  | ind, .arr (x :: xs) => by
    have h := renderElems_len ind (x :: xs)
    simp [render, jsize]
    omega
  | ind, .obj [] => by simp [render, jsize, msize]
  | ind, .obj (m :: ms) => by
    have h := renderMembers_len ind (m :: ms)
    simp [render, jsize]
    omega

theorem renderElems_len : (ind : Nat) → (xs : List Json) → lsize xs ≤ (renderElems ind xs).length
  | _, [] => by simp [renderElems, lsize]
  | ind, [x] => by
    have := render_len (ind + 1) x
    simp [renderElems, lsize, indentChars]
    omega
  | ind, x :: y :: ys => by
    have h1 := render_len (ind + 1) x
    have h2 := renderElems_len ind (y :: ys)
    simp [renderElems, lsize, indentChars]
    simp [lsize] at h2
    omega

theorem renderMembers_len :
    (ind : Nat) → (ms : List (List Char × Json)) → msize ms ≤ (renderMembers ind ms).length
  | _, [] => by simp [renderMembers, msize]
  | ind, [(k, v)] => by
    have h1 := render_len (ind + 1) v
    have h2 := escBody_len k
    simp [renderMembers, msize, indentChars]
    omega
  | ind, (k, v) :: m2 :: ms'' => by
    have h1 := render_len (ind + 1) v
    have h2 := renderMembers_len ind (m2 :: ms'')
    have h3 := escBody_len k
    simp [renderMembers, msize, indentChars]
    simp [msize] at h2
    omega

end

theorem jsonLoads_saveDump (j : Json) : jsonLoads (saveDump j) = some j := by
  unfold jsonLoads saveDump
  have hfuel : jsize j < (render 0 j).length + 1 := by
    have := render_len 0 j
    omega
  have hp := (parse_render_all ((render 0 j).length + 1)).1 j 0 [] hfuel trivial
  rw [List.append_nil] at hp
  rw [hp]
  simp

theorem jsonToPage_pageToJson (p : Page) : jsonToPage (pageToJson p) = some p := by
  cases p with
  | mk pn tx ip im =>
    cases ip <;> cases im <;>
      simp [pageToJson, jsonToPage, getField, lookupJ, chars]

theorem pagesFromJson_map : ∀ (ps : List Page), pagesFromJson (ps.map pageToJson) = some ps := by
  intro ps
  induction ps with
  | nil => simp [pagesFromJson]
  | cons p ps' ih => simp [pagesFromJson, jsonToPage_pageToJson, ih]

theorem jsonToStory_storyToJson (s : Story) : jsonToStory (storyToJson s) = some s := by
  cases s with
  | mk t ps => simp [storyToJson, jsonToStory, getField, lookupJ, pagesFromJson_map, chars]

/-- C9: for every Story, serializing it with save_storybook's layout and
parsing the document back yields the same Story. -/
theorem claim9_roundtrip (s : Story) :
    jsonLoads (saveDump (storyToJson s)) = some (storyToJson s) ∧
    (jsonLoads (saveDump (storyToJson s))).bind jsonToStory = some s := by
  refine ⟨jsonLoads_saveDump (storyToJson s), ?_⟩
  rw [jsonLoads_saveDump (storyToJson s)]
  simp [jsonToStory_storyToJson]

end Storybook
